import Mathlib

/-
Verification of the EspoCRM data-sync scripts (reports/workflows import and
export).  The scripts are shallowly embedded: JSON objects become association
lists of string-keyed values, the remote EspoCRM instance becomes an explicit
state (a list of stored entities plus a fresh-id counter) whose request
semantics is modelled from the specification of the Remote API Client
collaborator, and each script's per-entity and per-batch logic becomes a pure
function from that state and the parsed input files to the new state, the
observable outcome tallies and the list of requests issued.
-/

/-- JSON values as produced by JSON.parse. -/
inductive JValue where
  | null : JValue
  | bool : Bool → JValue
  | num : Int → JValue
  | str : String → JValue
  | arr : List JValue → JValue
  | obj : List (String × JValue) → JValue

/-- A parsed JSON object: an association list from field name to value. -/
abbrev Obj := List (String × JValue)

/-- Property lookup on an object: the value of the first binding of key k. -/
def jsGet (o : Obj) (k : String) : Option JValue :=
  (o.find? (fun p => p.1 == k)).map (fun p => p.2)

/-- Property lookup on a general value; non-objects have no properties
(models the result of accessing a field on null or a primitive via
optional chaining). -/
def jsGetV (v : JValue) (k : String) : Option JValue :=
  match v with
  | .obj fs => jsGet fs k
  | _ => none

/-- JavaScript truthiness of a value. -/
def truthy : JValue → Bool
  | .null => false
  | .bool b => b
  | .num n => n != 0
  | .str s => s != ""
  | .arr _ => true
  | .obj _ => true

/-- JavaScript truthiness of a possibly-absent value (undefined is falsy). -/
def jsTruthy (o : Option JValue) : Bool :=
  match o with
  | none => false
  | some v => truthy v

/-- JavaScript string conversion, as performed by template-literal
interpolation.  Arrays and objects are approximated by fixed strings; they
never occur at the interpolation sites exercised by the theorems below. -/
def jsToString : JValue → String
  | .null => "null"
  | .bool true => "true"
  | .bool false => "false"
  | .num n => toString n
  | .str s => s
  | .arr _ => ""
  | .obj _ => "[object Object]"

/-- String conversion of a possibly-absent value: an absent property
interpolates as the string "undefined". -/
def jsToStringOpt (o : Option JValue) : String :=
  match o with
  | none => "undefined"
  | some v => jsToString v

/-- String.prototype.endsWith, modelled structurally over the character
list so that it evaluates by kernel reduction. -/
def strEndsWith (s t : String) : Bool := t.data.isSuffixOf s.data

/-- String.prototype.startsWith, modelled structurally over the character
list so that it evaluates by kernel reduction. -/
def strStartsWith (s t : String) : Bool := t.data.isPrefixOf s.data

/-- Is the value JSON null (the target of the strict comparison with null). -/
def isNull : JValue → Bool
  | .null => true
  | _ => false

/-- Deleting a set of fields from an object, keeping all other bindings in
order: the pure-filter form of a sequence of JavaScript delete statements. -/
def removeFields (ks : List String) (o : Obj) : Obj :=
  o.filter (fun p => !(ks.contains p.1))

namespace ImportReports

/-- Field set deleted by sanitizeForImport in
data/scripts/import-reports.js lines 69 to 85: the five system/env-specific
fields plus the three fields Espo silently ignores updates for. -/
def importRemovedFields : List String :=
  ["id", "createdAt", "modifiedAt", "createdById", "modifiedById",
   "entityId", "entityType", "isInternal"]

/-- sanitizeForImport from data/scripts/import-reports.js lines 69 to 85:
structuredClone followed by deletion of the fields above.  In the pure
embedding the clone is the identity and the deletions are a filter. -/
def sanitizeForImport (report : Obj) : Obj :=
  removeFields importRemovedFields report

end ImportReports

namespace ExportWorkflows

/-- EXCLUDE_FIELDS from data/scripts/export-workflows.js lines 141 to 144. -/
def EXCLUDE_FIELDS : List String :=
  ["createdAt", "modifiedAt", "createdById", "createdByName",
   "modifiedById", "modifiedByName"]

/-- cleanForExport from data/scripts/export-workflows.js lines 146 to 150:
a shallow copy of the entity with every EXCLUDE_FIELDS entry deleted. -/
def cleanForExport (entity : Obj) : Obj :=
  removeFields EXCLUDE_FIELDS entity

end ExportWorkflows

namespace ExportReports

/-- sanitize from data/scripts/export-reports.js lines 27 to 41: clone and
delete the five env-specific fields (id included on the export side). -/
def sanitize (report : Obj) : Obj :=
  removeFields ["id", "createdAt", "modifiedAt", "createdById", "modifiedById"] report

end ExportReports

/-- Outcome of one HTTP exchange as seen by a client: either a response
with a status code and a (parsed) body, or a network-level failure. -/
inductive Fetched where
  | response : Nat → JValue → Fetched
  | networkError : String → Fetched

/-- Errors surfaced by the API clients: a non-2xx response carrying the
status code and the response text, or a transport failure. -/
inductive ApiErr where
  | api : Nat → JValue → ApiErr
  | transport : String → ApiErr

/-- Status codes treated as success by all three clients. -/
def is2xx (s : Nat) : Bool := 200 ≤ s && s < 300

namespace ImportWorkflows

/-- Response handling of apiRequest in import-workflows.js lines 90 to 108:
2xx resolves to the parsed body, 404 resolves to null, every other status
rejects with an error carrying status and response text, and a request
error rejects with the transport error. -/
def apiRequest (f : Fetched) : Except ApiErr JValue :=
  match f with
  | .response s b =>
      if is2xx s then .ok b
      else if s == 404 then .ok .null
      else .error (.api s b)
  | .networkError m => .error (.transport m)

/-- entityExists from import-workflows.js lines 142 to 149, as a function of
the fetched outcome of the GET on the workflow id: the result of apiRequest
is compared against null, and any thrown error is caught and turned into
false. -/
def entityExists (f : Fetched) : Bool :=
  match apiRequest f with
  | .ok v => !(isNull v)
  | .error _ => false

end ImportWorkflows

namespace ExportWorkflows

/-- Response handling of apiRequest in export-workflows.js lines 90 to 104:
2xx resolves to the parsed body and every non-2xx status, 404 included,
rejects with an error carrying status and response text. -/
def apiRequest (f : Fetched) : Except ApiErr JValue :=
  match f with
  | .response s b => if is2xx s then .ok b else .error (.api s b)
  | .networkError m => .error (.transport m)

end ExportWorkflows

namespace ImportReports

/-- Response handling of api in data/scripts/import-reports.js lines 39 to
55: res.ok (any 2xx) yields the parsed body; any other status, 404
included, throws an error carrying the status and response text. -/
def api (f : Fetched) : Except ApiErr JValue :=
  match f with
  | .response s b => if is2xx s then .ok b else .error (.api s b)
  | .networkError m => .error (.transport m)

/-- The projection res.list[0] with the or-null fallback performed by
findByName in import-reports.js line 66. -/
def listFirst (v : JValue) : JValue :=
  match v with
  | .obj fs =>
      match jsGet fs "list" with
      | some (.arr (x :: _)) => if truthy x then x else .null
      | _ => .null
  | _ => .null

/-- findByName in import-reports.js lines 61 to 67 as a function of the
fetched outcome of the lookup request: the api mapping followed by the
first-element projection; api errors propagate. -/
def findByNameOf (f : Fetched) : Except ApiErr JValue :=
  (api f).map listFirst

end ImportReports

/-- One entity stored in a remote EspoCRM instance: its remote identifier
and its stored field set. -/
structure Ent where
  id : String
  fields : Obj

/-- The remote target state: the stored entities in insertion order, plus a
counter from which the remote derives identifiers it assigns on create.
Modelled from the spec: the remote application is an external collaborator
specified only at its interface. -/
structure Remote where
  list : List Ent
  nextId : Nat

/-- Modelled from the spec: a remote-assigned identifier.  The generator is
abstract; it is chosen injective and disjoint by its leading character from
any identifier the theorems ever supply externally. -/
def freshId (n : Nat) : String :=
  String.mk ('e' :: List.replicate n 'x')

/-- Modelled from the spec: the exact name match applied by the remote to a
lookup filtered on name.  The filter parameter travels as a string, so only
entities whose name field is that exact string match. -/
def nameMatches (e : Ent) (s : String) : Bool :=
  match jsGet e.fields "name" with
  | some (.str m) => m == s
  | _ => false

/-- Modelled from the spec: how the remote renders a stored entity in a
response body, its assigned id first. -/
def renderEnt (e : Ent) : JValue :=
  .obj (("id", .str e.id) :: e.fields)

/-- Overwrite the stored fields of every entity with the given id.  Updates
overwrite the full entity body (spec non-goals: no field-level patching). -/
def setFields (i : String) (p : Obj) (l : List Ent) : List Ent :=
  l.map (fun e => if e.id == i then ⟨e.id, p⟩ else e)

/-- Modelled from the spec: the response to the report lookup issued by
findByName, a 200 whose body holds the list of name-matching entities
truncated to the requested page size of one. -/
def espoReportQuery (S : Remote) (q : String) : Fetched :=
  .response 200
    (.obj [("list", .arr (((S.list.filter (fun e => nameMatches e q)).take 1).map renderEnt))])

/-- Modelled from the spec: the state effect of PATCH on a report id. -/
def espoReportPatch (S : Remote) (i : String) (p : Obj) : Remote :=
  ⟨setFields i p S.list, S.nextId⟩

/-- Modelled from the spec: the state effect of POST on the report
collection, creating an entity under a remote-assigned identifier. -/
def espoReportPost (S : Remote) (p : Obj) : Remote :=
  ⟨S.list ++ [⟨freshId S.nextId, p⟩], S.nextId + 1⟩

/-- Modelled from the spec: the response to GET on a workflow id, a 200
rendering the entity when it exists and a 404 otherwise. -/
def espoWorkflowGet (S : Remote) (k : String) : Fetched :=
  match S.list.find? (fun e => e.id == k) with
  | some e => .response 200 (renderEnt e)
  | none => .response 404 (.str "Not Found")

/-- Modelled from the spec: the state effect of PUT on a workflow id. -/
def espoWorkflowPut (S : Remote) (k : String) (d : Obj) : Remote :=
  ⟨setFields k d S.list, S.nextId⟩

/-- Modelled from the spec: the state effect of POST on the workflow
collection.  The remote preserves an identifier supplied in the body (the
mechanism keeping workflow ids stable across environments); absent one it
assigns its own. -/
def espoWorkflowPost (S : Remote) (d : Obj) : Remote :=
  match jsGet d "id" with
  | some (.str s) => ⟨S.list ++ [⟨s, d⟩], S.nextId⟩
  | _ => ⟨S.list ++ [⟨freshId S.nextId, d⟩], S.nextId + 1⟩

/-- The requests a script can issue against the remote, with their bodies. -/
inductive Request where
  | findReportByName : String → Request
  | patchReport : String → Obj → Request
  | postReport : Obj → Request
  | getWorkflow : String → Request
  | putWorkflow : String → Obj → Request
  | postWorkflow : Obj → Request

/-- Per-entity outcome classification of the report upsert. -/
inductive Outcome where
  | created : Outcome
  | updated : Outcome
deriving DecidableEq

/-- Errors thrown inside the report upsert: the missing-name validation
error, or an error propagated from an api call. -/
inductive UErr where
  | validation : UErr
  | apiFail : ApiErr → UErr

/-- Errors that abort the report import loop: a JSON.parse failure or an
error thrown by upsert. -/
inductive RunErr where
  | parse : String → RunErr
  | upsert : UErr → RunErr

namespace ImportReports

/-- findByName in import-reports.js lines 61 to 67 against the modelled
remote: the GET on the name-filtered report collection with page size one,
then the first-element projection.  The argument is the report's name
property as read from the payload (absent interpolates as "undefined"). -/
def findByName (S : Remote) (nv : Option JValue) : Except ApiErr JValue :=
  findByNameOf (espoReportQuery S (jsToStringOpt nv))

/-- The identity resolution performed by upsert: findByName applied to the
name property of the sanitized payload. -/
def resolve (S : Remote) (report : Obj) : Except ApiErr JValue :=
  findByName S (jsGet (sanitizeForImport report) "name")

/-- upsert from data/scripts/import-reports.js lines 91 to 106: validate
that report.name is truthy, sanitize, resolve by name, then PATCH the
matched id or POST a new report.  Returns the requests issued together
with either the thrown error or the new remote state and the outcome. -/
def upsert (S : Remote) (report : Obj) : List Request × Except UErr (Remote × Outcome) :=
  if jsTruthy (jsGet report "name") = false then
    ([], .error .validation)
  else
    let payload := sanitizeForImport report
    let nv := jsGet payload "name"
    match resolve S report with
    | .error e => ([.findReportByName (jsToStringOpt nv)], .error (.apiFail e))
    | .ok existing =>
        if jsTruthy (jsGetV existing "id") then
          let eid := jsToStringOpt (jsGetV existing "id")
          ([.findReportByName (jsToStringOpt nv), .patchReport eid payload],
            .ok (espoReportPatch S eid payload, .updated))
        else
          ([.findReportByName (jsToStringOpt nv), .postReport payload],
            .ok (espoReportPost S payload, .created))

/-- The filename filter of main in import-reports.js lines 111 to 113:
keep every file ending in .json. -/
def fileKeep (f : String) : Bool := strEndsWith f ".json"

/-- Observable result of the report import batch: final remote state, the
per-entity outcomes in processing order, the requests issued, and the error
that aborted the loop, if any. -/
structure RunRes where
  state : Remote
  outcomes : List Outcome
  trace : List Request
  err : Option RunErr

/-- The body of main in import-reports.js lines 119 to 124: parse and
upsert each file in order.  There is no per-entity catch: a parse failure
or an upsert error propagates, aborting the loop with the remaining files
unprocessed (main.catch then exits the process). -/
def mainLoop (S : Remote) : List (Except String Obj) → RunRes
  | [] => ⟨S, [], [], none⟩
  | .error m :: _ => ⟨S, [], [], some (.parse m)⟩
  | .ok r :: rest =>
      match upsert S r with
      | (tr, .error u) => ⟨S, [], tr, some (.upsert u)⟩
      | (tr, .ok (S1, o)) =>
          let t := mainLoop S1 rest
          ⟨t.state, o :: t.outcomes, tr ++ t.trace, t.err⟩

/-- main from import-reports.js lines 110 to 127: filter the directory
listing to .json files, then run the loop over their parsed contents. -/
def mainRun (S : Remote) (dir : List (String × Except String Obj)) : RunRes :=
  mainLoop S ((dir.filter (fun p => fileKeep p.1)).map (fun p => p.2))

end ImportReports

/-- Per-file outcome classification of the workflow import. -/
inductive WOutcome where
  | created : WOutcome
  | updated : WOutcome
  | errored : WOutcome
deriving DecidableEq

/-- The created/updated/errors counters of import-workflows.js line 194. -/
structure Tally where
  created : Nat
  updated : Nat
  errors : Nat
deriving DecidableEq

/-- Add one per-file outcome to the tally. -/
def bump (o : WOutcome) (t : Tally) : Tally :=
  match o with
  | .created => ⟨t.created + 1, t.updated, t.errors⟩
  | .updated => ⟨t.created, t.updated + 1, t.errors⟩
  | .errored => ⟨t.created, t.updated, t.errors + 1⟩

namespace ImportWorkflows

/-- The string the workflow id interpolates to in the request paths of the
workflow importer, lines 144, 204 and 207: an absent id reads as
undefined and interpolates as the string "undefined". -/
def idStringOf (d : Obj) : String := jsToStringOpt (jsGet d "id")

/-- entityExists applied against the modelled remote: the fetched outcome
of the GET on the workflow id, run through the catch-everything check. -/
def entityExistsOn (S : Remote) (k : String) : Bool :=
  entityExists (espoWorkflowGet S k)

/-- The per-file try block of main in import-workflows.js lines 196 to 218:
a parse failure is caught and counted as an error; otherwise the existence
check on the file's id decides between PUT on that id and POST.  The file's
data is sent as read, unsanitized. -/
def step (S : Remote) (c : Except String Obj) : Remote × WOutcome × List Request :=
  match c with
  | .error _ => (S, .errored, [])
  | .ok d =>
      let k := idStringOf d
      if entityExistsOn S k then
        (espoWorkflowPut S k d, .updated, [.getWorkflow k, .putWorkflow k d])
      else
        (espoWorkflowPost S d, .created, [.getWorkflow k, .postWorkflow d])

/-- Observable result of the workflow import batch: final remote state,
the full tally, and the requests issued.  The loop is total: it always
completes and reports counts. -/
structure WRunRes where
  state : Remote
  tally : Tally
  trace : List Request

/-- The file loop of main in import-workflows.js lines 196 to 219. -/
def mainLoop (S : Remote) : List (Except String Obj) → WRunRes
  | [] => ⟨S, ⟨0, 0, 0⟩, []⟩
  | c :: rest =>
      match step S c with
      | (S1, o, tr) =>
          let t := mainLoop S1 rest
          ⟨t.state, bump o t.tally, tr ++ t.trace⟩

/-- The filename filter of main in import-workflows.js lines 167 to 168:
keep .json files not prefixed with an underscore. -/
def fileKeep (f : String) : Bool := strEndsWith f ".json" && !(strStartsWith f "_")

/-- main from import-workflows.js lines 151 to 226, from the directory
listing on: filter the filenames, then process each file in order. -/
def mainRun (S : Remote) (dir : List (String × Except String Obj)) : WRunRes :=
  mainLoop S ((dir.filter (fun p => fileKeep p.1)).map (fun p => p.2))

end ImportWorkflows

/-- The environment-bound field set named by the data-model invariant. -/
def envBoundFields : List String :=
  ["createdAt", "modifiedAt", "createdById", "modifiedById"]

/-- The body a request carries to the remote, when it carries one. -/
def bodyOf : Request → Option Obj
  | .patchReport _ b => some b
  | .postReport b => some b
  | .putWorkflow _ b => some b
  | .postWorkflow b => some b
  | _ => none

/-- A report snapshot the import considers valid: its name field is a
non-empty string. -/
def ValidReport (r : Obj) : Prop :=
  ∃ n, jsGet r "name" = some (JValue.str n) ∧ n ≠ ""

/-- The string the report lookup filters on: the name property of the
sanitized payload, as interpolated into the query. -/
def searchName (r : Obj) : String :=
  jsToStringOpt (jsGet (ImportReports.sanitizeForImport r) "name")

/-- The first stored entity whose name field exactly matches the search
string: the entity the modelled lookup returns. -/
def resolveEnt (S : Remote) (s : String) : Option Ent :=
  S.list.find? (fun e => nameMatches e s)

/-- The identifier the name-based strategy resolves to, if any. -/
def resolveId (S : Remote) (s : String) : Option String :=
  (resolveEnt S s).map (fun e => e.id)

/-- Normal form of one valid report upsert: patch the resolved entity or
post a new one.  The step the upsert reduces to once its validation has
passed and the remote has answered the lookup. -/
def reportStep (S : Remote) (r : Obj) : Remote × Outcome :=
  match resolveEnt S (searchName r) with
  | some e => (espoReportPatch S e.id (ImportReports.sanitizeForImport r), .updated)
  | none => (espoReportPost S (ImportReports.sanitizeForImport r), .created)

/-- The remote state after a batch of valid report upserts. -/
def reportRunState (S : Remote) : List Obj → Remote
  | [] => S
  | r :: B => reportRunState (reportStep S r).1 B

/-- The outcome sequence of a batch of valid report upserts. -/
def reportRunOuts (S : Remote) : List Obj → List Outcome
  | [] => []
  | r :: B => (reportStep S r).2 :: reportRunOuts (reportStep S r).1 B

/-- A sequence of full-body overwrites, applied left to right. -/
def applyWrites (ws : List (String × Obj)) (l : List Ent) : List Ent :=
  ws.foldl (fun acc w => setFields w.1 w.2 acc) l

/-- The overwrite each batch element performs when every element resolves
against S: target identifier together with the sanitized payload. -/
def writesFor (S : Remote) (B : List Obj) : List (String × Obj) :=
  B.map (fun r => ((resolveId S (searchName r)).getD "", ImportReports.sanitizeForImport r))

/-- Well-formedness of a remote target state: stored identifiers are
distinct, non-empty, and disjoint from every identifier the remote may
still assign. -/
def RemoteWF (S : Remote) : Prop :=
  (S.list.map (fun e => e.id)).Nodup
  ∧ ∀ e ∈ S.list, e.id ≠ "" ∧ ∀ m, S.nextId ≤ m → e.id ≠ freshId m

/-- A workflow snapshot the identity-based strategy is prepared for: a
string id pre-assigned in the file. -/
def ValidWorkflow (d : Obj) : Prop :=
  ∃ k, jsGet d "id" = some (JValue.str k)

/-- Whether an entity with the given id is stored. -/
def existsKey (S : Remote) (k : String) : Bool :=
  (S.list.find? (fun e => e.id == k)).isSome

/-- Normal form of one workflow upsert: put on the file's id when it
exists, post otherwise. -/
def wfStep (S : Remote) (d : Obj) : Remote × WOutcome :=
  if existsKey S (ImportWorkflows.idStringOf d) then
    (espoWorkflowPut S (ImportWorkflows.idStringOf d) d, .updated)
  else
    (espoWorkflowPost S d, .created)

/-- The remote state after a batch of workflow upserts. -/
def wfRunState (S : Remote) : List Obj → Remote
  | [] => S
  | d :: B => wfRunState (wfStep S d).1 B

/-- How many workflow upserts of a batch classify as created. -/
def wfRunCreated (S : Remote) : List Obj → Nat
  | [] => 0
  | d :: B => (match (wfStep S d).2 with | .created => 1 | _ => 0)
      + wfRunCreated (wfStep S d).1 B

/-- The successfully parsed objects of a file list, in order. -/
def okVals (L : List (Except String Obj)) : List Obj :=
  L.filterMap (fun c => c.toOption)

/-- The overwrite each valid workflow batch element performs: its own id
with the file body. -/
def wfWrites (B : List Obj) : List (String × Obj) :=
  B.map (fun d => (ImportWorkflows.idStringOf d, d))


/-- Looking up a key in a one-step extended object. -/
theorem jsGet_cons (k1 : String) (v : JValue) (o : Obj) (k : String) :
    jsGet ((k1, v) :: o) k = if k1 = k then some v else jsGet o k := by
  by_cases h : k1 = k <;> simp [jsGet, List.find?_cons, h]

/-- Unfolding removeFields over a cons cell. -/
theorem removeFields_cons (ks : List String) (k1 : String) (v : JValue) (o : Obj) :
    removeFields ks ((k1, v) :: o) =
      if k1 ∈ ks then removeFields ks o else (k1, v) :: removeFields ks o := by
  by_cases h : k1 ∈ ks <;> simp [removeFields, List.filter_cons, h]

/-- Field lookup through removeFields: a removed key reads as absent and
every other key reads unchanged. -/
theorem jsGet_removeFields (ks : List String) (o : Obj) (k : String) :
    jsGet (removeFields ks o) k = if k ∈ ks then none else jsGet o k := by
  induction o with
  | nil => by_cases h : k ∈ ks <;> simp [removeFields, jsGet, h]
  | cons p o ih =>
      obtain ⟨k1, v⟩ := p
      by_cases h2 : k1 = k
      · subst h2
        by_cases h1 : k1 ∈ ks <;>
          simp [removeFields_cons, h1, jsGet_cons, ih]
      · by_cases h1 : k1 ∈ ks <;>
          simp [removeFields_cons, h1, jsGet_cons, h2, ih]

/-- find? is the head of the filtered list. -/
theorem find?_eq_filter_head? {α : Type} (p : α → Bool) (l : List α) :
    l.find? p = (l.filter p).head? := by
  induction l with
  | nil => rfl
  | cons a l ih =>
      by_cases h : p a = true
      · rw [List.find?_cons_of_pos _ h, List.filter_cons_of_pos h]
        rfl
      · rw [List.find?_cons_of_neg _ (by simp [h]), List.filter_cons_of_neg (by simp [h]), ih]

/-- Claim C3 is refuted at a concrete input: the workflow exporter's
cleanForExport keeps the id field, while the claim states sanitization in
the export direction contains no id. -/
theorem C3_export_keeps_id_counterexample :
    jsGet (ExportWorkflows.cleanForExport [("id", JValue.str "w1")]) "id"
      = some (JValue.str "w1") := rfl

/-- Claim C3 (amended): sanitizeForImport removes exactly its eight-field
set (id included, although the import direction) and preserves every other
field; cleanForExport removes exactly its six-field set (createdByName and
modifiedByName included, id not included, so workflow ids survive export)
and preserves every other field, id in particular; the report exporter's
sanitize does remove id.  All three are pure filters, so the input object
is never mutated. -/
theorem C3_sanitizer_field_exclusion :
    (∀ (r : Obj) (k : String), k ∈ ImportReports.importRemovedFields →
        jsGet (ImportReports.sanitizeForImport r) k = none)
  ∧ (∀ (r : Obj) (k : String), k ∉ ImportReports.importRemovedFields →
        jsGet (ImportReports.sanitizeForImport r) k = jsGet r k)
  ∧ (∀ (e : Obj) (k : String), k ∈ ExportWorkflows.EXCLUDE_FIELDS →
        jsGet (ExportWorkflows.cleanForExport e) k = none)
  ∧ (∀ (e : Obj) (k : String), k ∉ ExportWorkflows.EXCLUDE_FIELDS →
        jsGet (ExportWorkflows.cleanForExport e) k = jsGet e k)
  ∧ (∀ (e : Obj), jsGet (ExportWorkflows.cleanForExport e) "id" = jsGet e "id")
  ∧ (∀ (r : Obj), jsGet (ExportReports.sanitize r) "id" = none) := by
  refine ⟨?_, ?_, ?_, ?_, ?_, ?_⟩
  · intro r k hk
    rw [ImportReports.sanitizeForImport, jsGet_removeFields, if_pos hk]
  · intro r k hk
    rw [ImportReports.sanitizeForImport, jsGet_removeFields, if_neg hk]
  · intro e k hk
    rw [ExportWorkflows.cleanForExport, jsGet_removeFields, if_pos hk]
  · intro e k hk
    rw [ExportWorkflows.cleanForExport, jsGet_removeFields, if_neg hk]
  · intro e
    rw [ExportWorkflows.cleanForExport, jsGet_removeFields, if_neg (by decide)]
  · intro r
    rw [ExportReports.sanitize, jsGet_removeFields, if_pos (by decide)]

/-- Witness for the amended sanitizer theorem at concrete inputs. -/
theorem C3_sanitizer_field_exclusion_witness :
    jsGet (ImportReports.sanitizeForImport
      [("createdAt", JValue.str "t"), ("name", JValue.str "A")]) "createdAt" = none
  ∧ jsGet (ImportReports.sanitizeForImport
      [("createdAt", JValue.str "t"), ("name", JValue.str "A")]) "name"
      = jsGet [("createdAt", JValue.str "t"), ("name", JValue.str "A")] "name"
  ∧ jsGet (ExportWorkflows.cleanForExport
      [("id", JValue.str "w1"), ("modifiedAt", JValue.str "t")]) "modifiedAt" = none :=
  ⟨C3_sanitizer_field_exclusion.1 _ "createdAt" (by decide),
   C3_sanitizer_field_exclusion.2.1 _ "name" (by decide),
   C3_sanitizer_field_exclusion.2.2.1 _ "modifiedAt" (by decide)⟩

/-- Claim C5 is refuted at a concrete input: the workflow importer's
entityExists receives a 500 error from apiRequest and converts it into the
answer false, that is, does not exist. -/
theorem C5_entityExists_swallows_errors_counterexample :
    ImportWorkflows.entityExists (.response 500 (JValue.str "boom")) = false
  ∧ ImportWorkflows.apiRequest (.response 500 (JValue.str "boom"))
      = Except.error (.api 500 (JValue.str "boom")) := ⟨rfl, rfl⟩

/-- Claim C5 (amended): in the report resolver, every error of the api
primitive propagates to the caller unmodified through findByName, with no
retry; the workflow resolver entityExists instead catches every error,
non-2xx responses other than 404 and transport failures alike, and answers
does-not-exist. -/
theorem C5_resolver_error_handling :
    (∀ (f : Fetched) (e : ApiErr), ImportReports.api f = .error e →
        ImportReports.findByNameOf f = .error e)
  ∧ (∀ (s : Nat) (b : JValue), is2xx s = false → s ≠ 404 →
        ImportWorkflows.entityExists (.response s b) = false)
  ∧ (∀ (m : String), ImportWorkflows.entityExists (.networkError m) = false) := by
  refine ⟨?_, ?_, ?_⟩
  · intro f e h
    rw [ImportReports.findByNameOf, h]
    rfl
  · intro s b h1 h2
    simp [ImportWorkflows.entityExists, ImportWorkflows.apiRequest, h1, h2]
  · intro m
    rfl

/-- Witness for the amended resolver error-handling theorem. -/
theorem C5_resolver_error_handling_witness :
    ImportReports.findByNameOf (.response 500 (JValue.str "x"))
      = Except.error (.api 500 (JValue.str "x"))
  ∧ ImportWorkflows.entityExists (.response 503 (JValue.str "y")) = false :=
  ⟨C5_resolver_error_handling.1 _ _ rfl,
   C5_resolver_error_handling.2.1 503 _ (by decide) (by decide)⟩

/-- Claim C6 is refuted on the workflow importer at a concrete input: a
workflow file with no name field at all is processed without any
validation failure, its nameless body is posted to the remote, and the
tally records it as created with zero errors, where the claim requires a
ValidationError for every snapshot whose name is missing. -/
theorem C6_workflow_no_name_validation_counterexample :
    (ImportWorkflows.mainRun ⟨[], 0⟩
        [("w.json", Except.ok [("id", JValue.str "w1")])]).tally = ⟨1, 0, 0⟩
  ∧ (ImportWorkflows.mainRun ⟨[], 0⟩
        [("w.json", Except.ok [("id", JValue.str "w1")])]).trace
      = [.getWorkflow "w1", .postWorkflow [("id", JValue.str "w1")]]
  ∧ jsGet [("id", JValue.str "w1")] "name" = none := ⟨rfl, rfl, rfl⟩

/-- Claim C6 (amended): only the report upsert validates the name.  It
checks report.name for truthiness before sanitizing or issuing any
request, and a missing name or an empty-string name throws the validation
error with no request issued at all.  The workflow importer performs no
name validation: a nameless workflow snapshot is sent to the remote and
classified created or updated, never failed, as the counterexample
shows. -/
theorem C6_upsert_validates_name :
    (∀ (S : Remote) (r : Obj), jsGet r "name" = none →
        ImportReports.upsert S r = ([], .error .validation))
  ∧ (∀ (S : Remote) (r : Obj), jsGet r "name" = some (JValue.str "") →
        ImportReports.upsert S r = ([], .error .validation)) := by
  constructor
  · intro S r h
    simp [ImportReports.upsert, h, jsTruthy]
  · intro S r h
    simp [ImportReports.upsert, h, jsTruthy, truthy]

/-- Witness for the name-validation theorem at concrete inputs. -/
theorem C6_upsert_validates_name_witness :
    ImportReports.upsert ⟨[], 0⟩ [("x", JValue.num 1)] = ([], .error .validation)
  ∧ ImportReports.upsert ⟨[], 0⟩ [("name", JValue.str "")] = ([], .error .validation) :=
  ⟨C6_upsert_validates_name.1 _ _ rfl, C6_upsert_validates_name.2 _ _ rfl⟩

/-- Claim C8 is refuted at a concrete input: the report scripts' client and
the workflow exporter's client raise on 404 instead of mapping it to null. -/
theorem C8_report_client_404_counterexample :
    ImportReports.api (.response 404 (JValue.str "nf")) ≠ Except.ok JValue.null
  ∧ ExportWorkflows.apiRequest (.response 404 (JValue.str "nf")) ≠ Except.ok JValue.null := by
  constructor <;> simp [ImportReports.api, ExportWorkflows.apiRequest, is2xx]

/-- Claim C8 (amended): the workflow importer's apiRequest maps 2xx to the
parsed body, 404 to null and any other status to an error carrying status
and response text, and surfaces transport errors; the report scripts'
client and the workflow exporter's client treat 404 as an error like any
other non-2xx status. -/
theorem C8_api_status_mapping :
    (∀ (s : Nat) (b : JValue), is2xx s = true →
        ImportWorkflows.apiRequest (.response s b) = .ok b)
  ∧ (∀ (b : JValue), ImportWorkflows.apiRequest (.response 404 b) = .ok .null)
  ∧ (∀ (s : Nat) (b : JValue), is2xx s = false → s ≠ 404 →
        ImportWorkflows.apiRequest (.response s b) = .error (.api s b))
  ∧ (∀ (m : String), ImportWorkflows.apiRequest (.networkError m) = .error (.transport m))
  ∧ (∀ (b : JValue), ImportReports.api (.response 404 b) = .error (.api 404 b))
  ∧ (∀ (b : JValue), ExportWorkflows.apiRequest (.response 404 b) = .error (.api 404 b)) := by
  refine ⟨?_, ?_, ?_, ?_, ?_, ?_⟩
  · intro s b h
    simp [ImportWorkflows.apiRequest, h]
  · intro b
    rfl
  · intro s b h1 h2
    simp [ImportWorkflows.apiRequest, h1, h2]
  · intro m
    rfl
  · intro b
    rfl
  · intro b
    rfl

/-- Witness for the status-mapping theorem at concrete statuses. -/
theorem C8_api_status_mapping_witness :
    ImportWorkflows.apiRequest (.response 200 (JValue.str "b")) = Except.ok (JValue.str "b")
  ∧ ImportWorkflows.apiRequest (.response 500 (JValue.str "e"))
      = Except.error (.api 500 (JValue.str "e")) :=
  ⟨C8_api_status_mapping.1 200 _ (by decide),
   C8_api_status_mapping.2.2.1 500 _ (by decide) (by decide)⟩

/-- Claim C9: the report importer's filename filter keeps files prefixed
with an underscore (only the workflow importer excludes them), so a
manifest file in the reports directory is read, parsed and passed to
upsert, where it aborts the batch for want of a name field. -/
theorem C9_underscore_not_excluded_report_import :
    ImportReports.fileKeep "_manifest.json" = true
  ∧ ImportWorkflows.fileKeep "_manifest.json" = false
  ∧ (ImportReports.mainRun ⟨[], 0⟩
      [("_manifest.json", Except.ok [("exportedAt", JValue.str "t")])]).err
      = some (.upsert .validation) :=
  ⟨by decide, by decide, rfl⟩

/-- A remote-assigned identifier is never the string "undefined". -/
theorem freshId_ne_undefined (n : Nat) : freshId n ≠ "undefined" := by
  intro h
  have h1 : (freshId n).data.head? = some 'e' := rfl
  rw [h] at h1
  exact absurd h1 (by decide)

/-- A remote-assigned identifier is never empty. -/
theorem freshId_ne_empty (n : Nat) : freshId n ≠ "" := by
  intro h
  have h1 : (freshId n).data.head? = some 'e' := rfl
  rw [h] at h1
  exact absurd h1 (by decide)

/-- Remote-assigned identifiers are pairwise distinct. -/
theorem freshId_inj {a b : Nat} (h : freshId a = freshId b) : a = b := by
  have h1 := congrArg (fun s => s.data.length) h
  simp only [freshId, String.data] at h1
  simpa using h1

/-- The existence check of the workflow importer agrees with membership of
the id among the stored entities. -/
theorem entityExistsOn_eq_existsKey (S : Remote) (k : String) :
    ImportWorkflows.entityExistsOn S k = existsKey S k := by
  rw [ImportWorkflows.entityExistsOn, ImportWorkflows.entityExists, espoWorkflowGet, existsKey]
  cases h : S.list.find? (fun e => e.id == k) with
  | none => rfl
  | some e => rfl

/-- State and outcome of a workflow import step on a parsed file agree
with the normal-form step. -/
theorem step_ok_state_out (S : Remote) (d : Obj) :
    (ImportWorkflows.step S (.ok d)).1 = (wfStep S d).1
  ∧ (ImportWorkflows.step S (.ok d)).2.1 = (wfStep S d).2 := by
  rw [ImportWorkflows.step, wfStep]
  rw [entityExistsOn_eq_existsKey]
  by_cases h : existsKey S (ImportWorkflows.idStringOf d) = true <;> simp [h]

/-- A workflow step that finds no stored id, on a file carrying no id of
its own, creates a fresh entity under a remote-assigned identifier. -/
theorem wfStep_create_fresh (S : Remote) (d : Obj)
    (h : existsKey S (ImportWorkflows.idStringOf d) = false)
    (hid : jsGet d "id" = none) :
    wfStep S d = (⟨S.list ++ [⟨freshId S.nextId, d⟩], S.nextId + 1⟩, .created) := by
  rw [wfStep, espoWorkflowPost, hid]
  simp [h]

/-- No stored id means the existence check is false. -/
theorem existsKey_false_of_not_mem (S : Remote) (k : String)
    (h : ∀ e ∈ S.list, e.id ≠ k) : existsKey S k = false := by
  rw [existsKey]
  rw [List.find?_eq_none.mpr]
  · rfl
  · intro e he
    simp [h e he]

/-- Claim C10: a workflow snapshot without an id resolves to the literal
id string "undefined"; its existence check is false on every run against a
state storing no entity under that string, so every run classifies it as
created and posts a fresh entity: two consecutive runs grow the remote by
two entities. -/
theorem C10_workflow_missing_id_not_idempotent (S : Remote) (d : Obj)
    (hid : jsGet d "id" = none)
    (hu : ∀ e ∈ S.list, e.id ≠ "undefined") :
    ImportWorkflows.idStringOf d = "undefined"
  ∧ ImportWorkflows.entityExistsOn S (ImportWorkflows.idStringOf d) = false
  ∧ (ImportWorkflows.step S (.ok d)).2.1 = .created
  ∧ (ImportWorkflows.step (ImportWorkflows.step S (.ok d)).1 (.ok d)).2.1 = .created
  ∧ (ImportWorkflows.step (ImportWorkflows.step S (.ok d)).1 (.ok d)).1.list.length
      = S.list.length + 2 := by
  have hstr : ImportWorkflows.idStringOf d = "undefined" := by
    rw [ImportWorkflows.idStringOf, hid]
    rfl
  have hkey : existsKey S (ImportWorkflows.idStringOf d) = false := by
    rw [hstr]
    exact existsKey_false_of_not_mem S _ hu
  have hstep : wfStep S d = (⟨S.list ++ [⟨freshId S.nextId, d⟩], S.nextId + 1⟩, .created) :=
    wfStep_create_fresh S d hkey hid
  obtain ⟨hs1, ho1⟩ := step_ok_state_out S d
  have hS1 : (ImportWorkflows.step S (.ok d)).1
      = ⟨S.list ++ [⟨freshId S.nextId, d⟩], S.nextId + 1⟩ := by rw [hs1, hstep]
  have hu1 : ∀ e ∈ (S.list ++ [⟨freshId S.nextId, d⟩] : List Ent), e.id ≠ "undefined" := by
    intro e he
    rcases List.mem_append.mp he with h | h
    · exact hu e h
    · rcases List.mem_singleton.mp h with rfl
      exact freshId_ne_undefined S.nextId
  have hkey1 : existsKey ⟨S.list ++ [⟨freshId S.nextId, d⟩], S.nextId + 1⟩
      (ImportWorkflows.idStringOf d) = false := by
    rw [hstr]
    exact existsKey_false_of_not_mem _ _ hu1
  have hstep1 := wfStep_create_fresh ⟨S.list ++ [⟨freshId S.nextId, d⟩], S.nextId + 1⟩ d hkey1 hid
  obtain ⟨hs2, ho2⟩ := step_ok_state_out ⟨S.list ++ [⟨freshId S.nextId, d⟩], S.nextId + 1⟩ d
  refine ⟨hstr, by rw [entityExistsOn_eq_existsKey]; exact hkey, ?_, ?_, ?_⟩
  · rw [ho1, hstep]
  · rw [hS1, ho2, hstep1]
  · rw [hS1, hs2, hstep1]
    simp

/-- Witness for the missing-id theorem: an empty remote and a one-field
workflow file. -/
theorem C10_workflow_missing_id_not_idempotent_witness :
    (ImportWorkflows.step ⟨[], 0⟩ (.ok [("name", JValue.str "W")])).2.1 = .created
  ∧ (ImportWorkflows.step
      (ImportWorkflows.step ⟨[], 0⟩ (.ok [("name", JValue.str "W")])).1
      (.ok [("name", JValue.str "W")])).2.1 = .created :=
  ⟨(C10_workflow_missing_id_not_idempotent ⟨[], 0⟩ [("name", JValue.str "W")]
      rfl (by simp)).2.2.1,
   (C10_workflow_missing_id_not_idempotent ⟨[], 0⟩ [("name", JValue.str "W")]
      rfl (by simp)).2.2.2.1⟩

/-- Claim C2 is refuted at a concrete batch: three report files where the
second has an empty name.  The report importer has no per-entity catch: it
processes the first file, then the validation failure propagates and the
batch aborts with the third file unprocessed and no tally, where the claim
requires the batch to complete with failed equal to one. -/
theorem C2_report_batch_aborts_counterexample :
    (ImportReports.mainRun ⟨[], 0⟩
        [("a.json", Except.ok [("name", JValue.str "A")]),
         ("b.json", Except.ok [("name", JValue.str "")]),
         ("c.json", Except.ok [("name", JValue.str "C")])]).err
      = some (.upsert .validation)
  ∧ (ImportReports.mainRun ⟨[], 0⟩
        [("a.json", Except.ok [("name", JValue.str "A")]),
         ("b.json", Except.ok [("name", JValue.str "")]),
         ("c.json", Except.ok [("name", JValue.str "C")])]).outcomes
      = [.created] := ⟨rfl, rfl⟩

/-- Claim C2 (amended): only the workflow importer isolates per-entity
failures.  Its batch loop is total and every file is accounted for in the
returned tally, the created, updated and error counts summing to the file
count; a concrete three-file batch whose middle file fails still processes
the other two and reports one error.  The report importer instead aborts
at the first failing entity, as the counterexample shows. -/
theorem C2_workflow_partial_failure_isolation :
    (∀ (S : Remote) (files : List (Except String Obj)),
        (ImportWorkflows.mainLoop S files).tally.created
          + (ImportWorkflows.mainLoop S files).tally.updated
          + (ImportWorkflows.mainLoop S files).tally.errors = files.length)
  ∧ (ImportWorkflows.mainRun ⟨[], 0⟩
        [("a.json", Except.ok [("id", JValue.str "w1")]),
         ("b.json", Except.error "bad"),
         ("c.json", Except.ok [("id", JValue.str "w3")])]).tally = ⟨2, 0, 1⟩ := by
  constructor
  · intro S files
    induction files generalizing S with
    | nil => rfl
    | cons c rest ih =>
        rw [ImportWorkflows.mainLoop]
        rcases hs : ImportWorkflows.step S c with ⟨S1, o, tr⟩
        have h := ih S1
        cases o <;> simp [bump] <;> omega
  · rfl

/-- The name lookup against the modelled remote returns the first stored
entity whose name is exactly the searched string, rendered with its id,
and null when no entity matches. -/
theorem findByName_spec (S : Remote) (nv : Option JValue) :
    ImportReports.findByName S nv =
      .ok (match resolveEnt S (jsToStringOpt nv) with
           | some e => renderEnt e
           | none => JValue.null) := by
  have h200 : is2xx 200 = true := by decide
  rw [ImportReports.findByName, ImportReports.findByNameOf, espoReportQuery,
    resolveEnt, find?_eq_filter_head?]
  cases h : S.list.filter (fun e => nameMatches e (jsToStringOpt nv)) with
  | nil => rfl
  | cons a as => rfl

/-- Claim C4: the report lookup filters on exact name with page size one
and yields the first matching entity's record, or null when none matches;
and the identity the upsert resolves is a function of the snapshot's name
field alone, so any id value present in or added to the local snapshot
leaves resolution unchanged (the sanitizer strips id before the lookup). -/
theorem C4_report_identity_resolution :
    (∀ (S : Remote) (nv : Option JValue),
        ImportReports.findByName S nv =
          .ok (match resolveEnt S (jsToStringOpt nv) with
               | some e => renderEnt e
               | none => JValue.null))
  ∧ (∀ (S : Remote) (r : Obj),
        ImportReports.resolve S r = ImportReports.findByName S (jsGet r "name"))
  ∧ (∀ (S : Remote) (r : Obj) (v : JValue),
        ImportReports.resolve S (("id", v) :: r) = ImportReports.resolve S r) := by
  refine ⟨findByName_spec, ?_, ?_⟩
  · intro S r
    rw [ImportReports.resolve, ImportReports.sanitizeForImport, jsGet_removeFields,
      if_neg (by decide)]
  · intro S r v
    rw [ImportReports.resolve, ImportReports.resolve, ImportReports.sanitizeForImport,
      ImportReports.sanitizeForImport, removeFields_cons, if_pos (by decide)]

/-- Every environment-bound field is among the fields sanitizeForImport
removes. -/
theorem env_subset_removed : ∀ k ∈ envBoundFields, k ∈ ImportReports.importRemovedFields := by
  decide

/-- The sanitized payload carries no environment-bound field. -/
theorem sanitize_env_clean (r : Obj) (k : String) (hk : k ∈ envBoundFields) :
    jsGet (ImportReports.sanitizeForImport r) k = none := by
  rw [ImportReports.sanitizeForImport, jsGet_removeFields, if_pos (env_subset_removed k hk)]

/-- The requests one report upsert can issue: nothing, the lookup alone,
or the lookup followed by a patch or post whose body is the sanitized
payload. -/
theorem upsert_trace_cases (S : Remote) (r : Obj) :
    (ImportReports.upsert S r).1 = []
  ∨ (∃ q, (ImportReports.upsert S r).1 = [Request.findReportByName q])
  ∨ (∃ q i, (ImportReports.upsert S r).1
      = [Request.findReportByName q, Request.patchReport i (ImportReports.sanitizeForImport r)])
  ∨ (∃ q, (ImportReports.upsert S r).1
      = [Request.findReportByName q, Request.postReport (ImportReports.sanitizeForImport r)]) := by
  by_cases h0 : jsTruthy (jsGet r "name") = false
  · left
    simp [ImportReports.upsert, h0]
  · have h0t : jsTruthy (jsGet r "name") = true := by
      revert h0
      cases jsTruthy (jsGet r "name") <;> simp
    cases hres : ImportReports.resolve S r with
    | error e =>
        right; left
        exact ⟨jsToStringOpt (jsGet (ImportReports.sanitizeForImport r) "name"),
          by simp [ImportReports.upsert, h0t, hres]⟩
    | ok ex =>
        by_cases hid : jsTruthy (jsGetV ex "id") = true
        · right; right; left
          exact ⟨jsToStringOpt (jsGet (ImportReports.sanitizeForImport r) "name"),
            jsToStringOpt (jsGetV ex "id"),
            by simp [ImportReports.upsert, h0t, hres, hid]⟩
        · have hidf : jsTruthy (jsGetV ex "id") = false := by
            revert hid
            cases jsTruthy (jsGetV ex "id") <;> simp
          right; right; right
          exact ⟨jsToStringOpt (jsGet (ImportReports.sanitizeForImport r) "name"),
            by simp [ImportReports.upsert, h0t, hres, hidf]⟩

/-- Every body issued by one report upsert is free of environment-bound
fields. -/
theorem upsert_trace_env_clean (S : Remote) (r : Obj) :
    ∀ req ∈ (ImportReports.upsert S r).1, ∀ b, bodyOf req = some b →
      ∀ k ∈ envBoundFields, jsGet b k = none := by
  intro req hreq b hb k hk
  rcases upsert_trace_cases S r with h | ⟨q, h⟩ | ⟨q, i, h⟩ | ⟨q, h⟩ <;> rw [h] at hreq
  · exact absurd hreq (List.not_mem_nil _)
  · rcases List.mem_singleton.mp hreq with rfl
    cases hb
  · rcases List.mem_cons.mp hreq with rfl | hreq2
    · cases hb
    · rcases List.mem_singleton.mp hreq2 with rfl
      rw [bodyOf] at hb
      cases hb
      exact sanitize_env_clean r k hk
  · rcases List.mem_cons.mp hreq with rfl | hreq2
    · cases hb
    · rcases List.mem_singleton.mp hreq2 with rfl
      rw [bodyOf] at hb
      cases hb
      exact sanitize_env_clean r k hk

/-- Every body issued during the report import loop is free of
environment-bound fields. -/
theorem mainLoop_trace_env_clean (S : Remote) (L : List (Except String Obj)) :
    ∀ req ∈ (ImportReports.mainLoop S L).trace, ∀ b, bodyOf req = some b →
      ∀ k ∈ envBoundFields, jsGet b k = none := by
  induction L generalizing S with
  | nil =>
      intro req h
      exact absurd h (List.not_mem_nil _)
  | cons c rest ih =>
      cases c with
      | error m =>
          intro req h
          rw [ImportReports.mainLoop] at h
          exact absurd h (List.not_mem_nil _)
      | ok r =>
          intro req hreq b hb k hk
          rw [ImportReports.mainLoop] at hreq
          cases hu : ImportReports.upsert S r with
          | mk tr res =>
              rw [hu] at hreq
              cases res with
              | error u =>
                  have : req ∈ tr := hreq
                  have h1 := upsert_trace_env_clean S r req (by rw [hu]; exact this) b hb k hk
                  exact h1
              | ok p =>
                  rcases p with ⟨S1, o⟩
                  rcases List.mem_append.mp hreq with h1 | h2
                  · exact upsert_trace_env_clean S r req (by rw [hu]; exact h1) b hb k hk
                  · exact ih S1 req h2 b hb k hk

/-- Claim C7 (amended): in the report import every create or update body
is the sanitized payload, so it contains no environment-bound field,
whatever appears in the source file; the workflow import, by contrast,
sends file contents unsanitized (sanitization happens at export time), as
the counterexample shows. -/
theorem C7_report_bodies_env_clean :
    ∀ (S : Remote) (dir : List (String × Except String Obj)),
      ∀ req ∈ (ImportReports.mainRun S dir).trace, ∀ b, bodyOf req = some b →
        ∀ k ∈ envBoundFields, jsGet b k = none := by
  intro S dir
  rw [ImportReports.mainRun]
  exact mainLoop_trace_env_clean S _

/-- Claim C7 is refuted on the workflow import at a concrete input: a
workflow file carrying createdAt is posted verbatim, environment-bound
field included. -/
theorem C7_workflow_unsanitized_counterexample :
    (ImportWorkflows.mainRun ⟨[], 0⟩
        [("w.json", Except.ok [("id", JValue.str "w1"), ("createdAt", JValue.str "x")])]).trace
      = [.getWorkflow "w1",
         .postWorkflow [("id", JValue.str "w1"), ("createdAt", JValue.str "x")]]
  ∧ jsGet [("id", JValue.str "w1"), ("createdAt", JValue.str "x")] "createdAt"
      = some (JValue.str "x") := ⟨rfl, rfl⟩

/-- Witness for the report-side body-cleanliness theorem at a concrete
batch whose source file carries createdAt. -/
theorem C7_report_bodies_env_clean_witness :
    jsGet (ImportReports.sanitizeForImport
      [("name", JValue.str "A"), ("createdAt", JValue.str "t")]) "createdAt" = none :=
  C7_report_bodies_env_clean ⟨[], 0⟩
    [("a.json", Except.ok [("name", JValue.str "A"), ("createdAt", JValue.str "t")])]
    (Request.postReport (ImportReports.sanitizeForImport
      [("name", JValue.str "A"), ("createdAt", JValue.str "t")]))
    (List.Mem.tail _ (List.Mem.head _))
    (ImportReports.sanitizeForImport [("name", JValue.str "A"), ("createdAt", JValue.str "t")])
    rfl "createdAt" (by decide)

/-- Overwriting the same id twice keeps only the second write. -/
theorem setFields_override (i : String) (p q : Obj) (l : List Ent) :
    setFields i q (setFields i p l) = setFields i q l := by
  simp only [setFields, List.map_map]
  congr 1
  funext e
  by_cases h : (e.id == i) = true <;> simp [Function.comp, h]

/-- Overwrites at distinct ids commute. -/
theorem setFields_comm (i j : String) (hij : i ≠ j) (p q : Obj) (l : List Ent) :
    setFields i p (setFields j q l) = setFields j q (setFields i p l) := by
  simp only [setFields, List.map_map]
  congr 1
  funext e
  by_cases h1 : e.id = i
  · have h2 : e.id ≠ j := h1 ▸ hij
    simp [Function.comp, h1, h2, hij, Ne.symm hij]
  · by_cases h2 : e.id = j <;> simp [Function.comp, h1, h2, hij, Ne.symm hij]

/-- An overwrite that re-stores the fields every targeted entity already
has is the identity. -/
theorem setFields_noop (j : String) (p : Obj) (l : List Ent)
    (h : ∀ e ∈ l, e.id = j → e.fields = p) : setFields j p l = l := by
  induction l with
  | nil => rfl
  | cons e l ih =>
      have ht : setFields j p l = l :=
        ih (fun e1 he1 => h e1 (List.mem_cons_of_mem _ he1))
      rcases e with ⟨eid, ef⟩
      rw [show setFields j p (⟨eid, ef⟩ :: l)
          = (if (Ent.mk eid ef).id == j then ⟨(Ent.mk eid ef).id, p⟩ else ⟨eid, ef⟩)
            :: setFields j p l from rfl, ht]
      by_cases hj : eid = j
      · have hf : ef = p := h ⟨eid, ef⟩ (List.mem_cons_self _ _) hj
        simp [hj, ← hf]
      · simp [hj]

/-- Unfolding one write of a write sequence. -/
theorem applyWrites_cons (i : String) (p : Obj) (ws : List (String × Obj)) (l : List Ent) :
    applyWrites ((i, p) :: ws) l = applyWrites ws (setFields i p l) := rfl

/-- A write whose id is written again later in the sequence is absorbed. -/
theorem applyWrites_absorb (ws : List (String × Obj)) (i : String) (p : Obj) (l : List Ent)
    (h : ∃ q, (i, q) ∈ ws) :
    applyWrites ws (setFields i p l) = applyWrites ws l := by
  induction ws generalizing l with
  | nil =>
      rcases h with ⟨q, hq⟩
      exact absurd hq (List.not_mem_nil _)
  | cons w ws ih =>
      rcases w with ⟨i1, p1⟩
      by_cases hii : i1 = i
      · subst hii
        rw [applyWrites_cons, applyWrites_cons, setFields_override]
      · rcases h with ⟨q, hq⟩
        rcases List.mem_cons.mp hq with heq | hq2
        · exact absurd (congrArg Prod.fst heq).symm hii
        · rw [applyWrites_cons, applyWrites_cons, setFields_comm i1 i hii p1 p l,
            ih (setFields i1 p1 l) ⟨q, hq2⟩]

/-- Overwriting fields never changes which ids are stored. -/
theorem existsKey_setFields (i : String) (p : Obj) (l : List Ent) (n : Nat) (k : String) :
    existsKey ⟨setFields i p l, n⟩ k = existsKey ⟨l, n⟩ k := by
  simp only [existsKey, setFields, List.find?_map]
  have hc : ((fun e => e.id == k) ∘ fun e => if e.id == i then (⟨e.id, p⟩ : Ent) else e)
      = fun e => e.id == k := by
    funext e
    by_cases h : (e.id == i) = true <;> simp [Function.comp, h]
  rw [hc]
  cases l.find? (fun e => e.id == k) <;> rfl

/-- Appending an entity keeps every stored id stored. -/
theorem existsKey_append (l : List Ent) (x : Ent) (n m : Nat) (k : String)
    (h : existsKey ⟨l, n⟩ k = true) : existsKey ⟨l ++ [x], m⟩ k = true := by
  simp only [existsKey] at h ⊢
  rw [List.find?_append]
  rcases Option.isSome_iff_exists.mp h with ⟨e, he⟩
  rw [he]
  rfl

/-- The id of an appended entity is stored afterwards. -/
theorem existsKey_append_self (l : List Ent) (d : Obj) (n : Nat) (k : String) :
    existsKey ⟨l ++ [⟨k, d⟩], n⟩ k = true := by
  simp only [existsKey]
  rw [List.find?_append]
  cases hf : l.find? (fun e => e.id == k) <;> simp [List.find?]

/-- An id absent from the store differs from every stored id. -/
theorem existsKey_false_forall (S : Remote) (k : String)
    (h : existsKey S k = false) : ∀ e ∈ S.list, e.id ≠ k := by
  intro e he heq
  have h1 : S.list.find? (fun e => e.id == k) = none := by
    rcases hf : S.list.find? (fun e => e.id == k) with _ | e1
    · exact hf
    · rw [existsKey, hf] at h
      cases h
  have := List.find?_eq_none.mp h1 e he
  simp [heq] at this

/-- The workflow create appends one entity at the end of the store. -/
theorem espoWorkflowPost_shape (S : Remote) (d : Obj) :
    ∃ x n1, espoWorkflowPost S d = ⟨S.list ++ [x], n1⟩ := by
  rw [espoWorkflowPost]
  cases h : jsGet d "id" with
  | none => exact ⟨_, _, rfl⟩
  | some v => cases v <;> exact ⟨_, _, rfl⟩

/-- A workflow step on a file with a string id: put on that id when it is
stored, append it otherwise. -/
theorem wfStep_valid (S : Remote) (d : Obj) (kd : String)
    (hid : jsGet d "id" = some (JValue.str kd)) :
    wfStep S d = if existsKey S kd
      then (⟨setFields kd d S.list, S.nextId⟩, WOutcome.updated)
      else (⟨S.list ++ [⟨kd, d⟩], S.nextId⟩, WOutcome.created) := by
  have hk : ImportWorkflows.idStringOf d = kd := by
    rw [ImportWorkflows.idStringOf, hid]
    rfl
  rw [wfStep, hk, espoWorkflowPut, espoWorkflowPost, hid]

/-- The id string of a file with a string id. -/
theorem idStringOf_valid (d : Obj) (kd : String)
    (hid : jsGet d "id" = some (JValue.str kd)) :
    ImportWorkflows.idStringOf d = kd := by
  rw [ImportWorkflows.idStringOf, hid]
  rfl

/-- A workflow step keeps every stored id stored. -/
theorem existsKey_wfStep_mono (S : Remote) (d : Obj) (k : String)
    (h : existsKey S k = true) : existsKey (wfStep S d).1 k = true := by
  rw [wfStep]
  by_cases he : existsKey S (ImportWorkflows.idStringOf d) = true
  · rw [if_pos he, espoWorkflowPut]
    rw [existsKey_setFields]
    exact h
  · rw [if_neg he]
    rcases espoWorkflowPost_shape S d with ⟨x, n1, hx⟩
    rw [hx]
    exact existsKey_append S.list x S.nextId n1 k h

/-- After a workflow step on a file with a string id, that id is stored. -/
theorem existsKey_wfStep_own (S : Remote) (d : Obj) (kd : String)
    (hid : jsGet d "id" = some (JValue.str kd)) :
    existsKey (wfStep S d).1 kd = true := by
  rw [wfStep_valid S d kd hid]
  by_cases he : existsKey S kd = true
  · rw [if_pos he]
    rw [existsKey_setFields]
    exact he
  · rw [if_neg he]
    exact existsKey_append_self S.list d S.nextId kd

/-- A workflow batch keeps every stored id stored. -/
theorem wfRun_mono (S : Remote) (B : List Obj) (k : String)
    (h : existsKey S k = true) : existsKey (wfRunState S B) k = true := by
  induction B generalizing S with
  | nil => exact h
  | cons d B1 ih =>
      show existsKey (wfRunState (wfStep S d).1 B1) k = true
      exact ih (wfStep S d).1 (existsKey_wfStep_mono S d k h)

/-- After a valid workflow batch, every batch id is stored. -/
theorem wfRun_sat (S : Remote) (B : List Obj) (hB : ∀ d ∈ B, ValidWorkflow d) :
    ∀ d ∈ B, existsKey (wfRunState S B) (ImportWorkflows.idStringOf d) = true := by
  induction B generalizing S with
  | nil =>
      intro d hd
      exact absurd hd (List.not_mem_nil _)
  | cons d0 B1 ih =>
      intro d hd
      rcases List.mem_cons.mp hd with rfl | hd1
      · obtain ⟨kd, hid⟩ := hB d (List.mem_cons_self _ _)
        show existsKey (wfRunState (wfStep S d).1 B1) (ImportWorkflows.idStringOf d) = true
        rw [idStringOf_valid d kd hid]
        exact wfRun_mono (wfStep S d).1 B1 kd (existsKey_wfStep_own S d kd hid)
      · exact ih (wfStep S d0).1
          (fun d2 h2 => hB d2 (List.mem_cons_of_mem _ h2)) d hd1

/-- Over a state already storing every batch id, a valid workflow batch is
a pure overwrite replay: the state becomes the write sequence applied to
the store, the counter is untouched, and nothing is classified created. -/
theorem wfRun_replay (S : Remote) (B : List Obj) (hB : ∀ d ∈ B, ValidWorkflow d)
    (hsat : ∀ d ∈ B, existsKey S (ImportWorkflows.idStringOf d) = true) :
    wfRunState S B = ⟨applyWrites (wfWrites B) S.list, S.nextId⟩
  ∧ wfRunCreated S B = 0 := by
  induction B generalizing S with
  | nil => exact ⟨rfl, rfl⟩
  | cons d B1 ih =>
      obtain ⟨kd, hid⟩ := hB d (List.mem_cons_self _ _)
      have hk : ImportWorkflows.idStringOf d = kd := idStringOf_valid d kd hid
      have he : existsKey S kd = true := by
        rw [← hk]
        exact hsat d (List.mem_cons_self _ _)
      have hstep : wfStep S d = (⟨setFields kd d S.list, S.nextId⟩, WOutcome.updated) := by
        rw [wfStep_valid S d kd hid, if_pos he]
      have hsat1 : ∀ d1 ∈ B1,
          existsKey (⟨setFields kd d S.list, S.nextId⟩ : Remote)
            (ImportWorkflows.idStringOf d1) = true := by
        intro d1 h1
        rw [existsKey_setFields]
        exact hsat d1 (List.mem_cons_of_mem _ h1)
      obtain ⟨ihs, ihc⟩ := ih ⟨setFields kd d S.list, S.nextId⟩
        (fun d2 h2 => hB d2 (List.mem_cons_of_mem _ h2)) hsat1
      constructor
      · show wfRunState (wfStep S d).1 B1 = _
        rw [hstep]
        rw [show wfWrites (d :: B1) = (ImportWorkflows.idStringOf d, d) :: wfWrites B1 from rfl,
          hk, applyWrites_cons]
        exact ihs
      · show (match (wfStep S d).2 with | .created => 1 | _ => 0)
            + wfRunCreated (wfStep S d).1 B1 = 0
        rw [hstep]
        simpa using ihc

/-- A valid workflow batch touching only other ids preserves the fields of
every entity stored under a given id. -/
theorem wfRun_preserves (S : Remote) (B : List Obj) (hB : ∀ d ∈ B, ValidWorkflow d)
    (j : String) (hj : ∀ d ∈ B, ImportWorkflows.idStringOf d ≠ j) (p : Obj)
    (hp : ∀ e ∈ S.list, e.id = j → e.fields = p) :
    ∀ e ∈ (wfRunState S B).list, e.id = j → e.fields = p := by
  induction B generalizing S with
  | nil => exact hp
  | cons d B1 ih =>
      obtain ⟨kd, hid⟩ := hB d (List.mem_cons_self _ _)
      have hk : ImportWorkflows.idStringOf d = kd := idStringOf_valid d kd hid
      have hkj : kd ≠ j := hk ▸ hj d (List.mem_cons_self _ _)
      show ∀ e ∈ (wfRunState (wfStep S d).1 B1).list, e.id = j → e.fields = p
      apply ih (wfStep S d).1
        (fun d2 h2 => hB d2 (List.mem_cons_of_mem _ h2))
        (fun d2 h2 => hj d2 (List.mem_cons_of_mem _ h2))
      rw [wfStep_valid S d kd hid]
      by_cases he : existsKey S kd = true
      · rw [if_pos he]
        intro e he1 hej
        rcases List.mem_map.mp he1 with ⟨e0, he0, rfl⟩
        by_cases h0 : (e0.id == kd) = true
        · rw [if_pos h0] at hej ⊢
          exact absurd (hej ▸ rfl : e0.id = j)
            (fun hh => hkj ((beq_iff_eq.mp h0) ▸ hh))
        · rw [if_neg h0] at hej ⊢
          exact hp e0 he0 hej
      · rw [if_neg he]
        intro e he1 hej
        rcases List.mem_append.mp he1 with h1 | h1
        · exact hp e h1 hej
        · rcases List.mem_singleton.mp h1 with rfl
          exact absurd hej hkj

/-- After a valid workflow batch, re-applying the batch write sequence
leaves the store unchanged: every id's last writer has already written. -/
theorem wfRun_applyWrites_fix (T : Remote) (B : List Obj) (hB : ∀ d ∈ B, ValidWorkflow d) :
    applyWrites (wfWrites B) (wfRunState T B).list = (wfRunState T B).list := by
  induction B generalizing T with
  | nil => rfl
  | cons d B1 ih =>
      obtain ⟨kd, hid⟩ := hB d (List.mem_cons_self _ _)
      have hk : ImportWorkflows.idStringOf d = kd := idStringOf_valid d kd hid
      have hBt : ∀ d2 ∈ B1, ValidWorkflow d2 :=
        fun d2 h2 => hB d2 (List.mem_cons_of_mem _ h2)
      have ih1 : applyWrites (wfWrites B1) (wfRunState (wfStep T d).1 B1).list
          = (wfRunState (wfStep T d).1 B1).list := ih (wfStep T d).1 hBt
      show applyWrites ((ImportWorkflows.idStringOf d, d) :: wfWrites B1)
          (wfRunState (wfStep T d).1 B1).list
        = (wfRunState (wfStep T d).1 B1).list
      rw [hk, applyWrites_cons]
      by_cases hmem : ∃ q, (kd, q) ∈ wfWrites B1
      · rw [applyWrites_absorb _ _ _ _ hmem, ih1]
      · have hnk : ∀ d1 ∈ B1, ImportWorkflows.idStringOf d1 ≠ kd := by
          intro d1 h1 heq
          exact hmem ⟨d1, heq ▸ List.mem_map_of_mem _ h1⟩
        have hpT : ∀ e ∈ (wfStep T d).1.list, e.id = kd → e.fields = d := by
          rw [wfStep_valid T d kd hid]
          by_cases he : existsKey T kd = true
          · rw [if_pos he]
            intro e he1 hej
            rcases List.mem_map.mp he1 with ⟨e0, he0, rfl⟩
            by_cases h0 : (e0.id == kd) = true
            · rw [if_pos h0]
            · rw [if_neg h0] at hej ⊢
              exact absurd hej (by simpa using h0)
          · rw [if_neg he]
            intro e he1 hej
            rcases List.mem_append.mp he1 with h1 | h1
            · exact absurd hej (existsKey_false_forall T kd (by
                revert he
                cases existsKey T kd <;> simp) e h1)
            · rcases List.mem_singleton.mp h1 with rfl
              rfl
        have hp : ∀ e ∈ (wfRunState (wfStep T d).1 B1).list, e.id = kd → e.fields = d :=
          wfRun_preserves (wfStep T d).1 B1 hBt kd hnk d hpT
        rw [setFields_noop kd d _ hp, ih1]

/-- A valid workflow batch is idempotent: the second run leaves the remote
state unchanged and creates nothing. -/
theorem wfRun_idem (T : Remote) (B : List Obj) (hB : ∀ d ∈ B, ValidWorkflow d) :
    wfRunState (wfRunState T B) B = wfRunState T B
  ∧ wfRunCreated (wfRunState T B) B = 0 := by
  have hsat := wfRun_sat T B hB
  obtain ⟨hrep, hc⟩ := wfRun_replay (wfRunState T B) B hB hsat
  refine ⟨?_, hc⟩
  rw [hrep, wfRun_applyWrites_fix T B hB]

/-- The sanitized payload of a snapshot keeps the name field. -/
theorem sanitize_keeps_name (r : Obj) :
    jsGet (ImportReports.sanitizeForImport r) "name" = jsGet r "name" := by
  rw [ImportReports.sanitizeForImport, jsGet_removeFields, if_neg (by decide)]

/-- The search string of a snapshot with a string name is that name. -/
theorem searchName_valid (r : Obj) (n : String)
    (hname : jsGet r "name" = some (JValue.str n)) : searchName r = n := by
  rw [searchName, sanitize_keeps_name, hname]
  rfl

/-- A matching entity's stored name field is exactly the searched string. -/
theorem nameMatches_eq (e : Ent) (s : String) (h : nameMatches e s = true) :
    jsGet e.fields "name" = some (JValue.str s) := by
  rw [nameMatches] at h
  cases hj : jsGet e.fields "name" with
  | none => rw [hj] at h; cases h
  | some v =>
      cases v with
      | str m =>
          rw [hj] at h
          have hms : m = s := by simpa using h
          rw [hms]
      | null => rw [hj] at h; cases h
      | bool b => rw [hj] at h; cases h
      | num i => rw [hj] at h; cases h
      | arr a => rw [hj] at h; cases h
      | obj o => rw [hj] at h; cases h

/-- find? through a pointwise transformation that changes neither the
predicate value nor the id of any member: the resolved id is unchanged. -/
theorem find?_map_id_congr (f : Ent → Ent) (l : List Ent) (p : Ent → Bool)
    (h : ∀ e ∈ l, p (f e) = p e ∧ (f e).id = e.id) :
    ((l.map f).find? p).map (fun e => e.id) = (l.find? p).map (fun e => e.id) := by
  induction l with
  | nil => rfl
  | cons e l ih =>
      obtain ⟨hp, hid⟩ := h e (List.mem_cons_self _ _)
      rw [List.map_cons]
      by_cases hc : p e = true
      · rw [List.find?_cons_of_pos _ (hp.trans hc), List.find?_cons_of_pos _ hc]
        simp [hid]
      · rw [List.find?_cons_of_neg _ (by rw [hp]; exact hc), List.find?_cons_of_neg _ hc]
        exact ih (fun e1 he1 => h e1 (List.mem_cons_of_mem _ he1))

/-- An overwrite whose payload has the same name field as every entity it
targets leaves every resolution unchanged. -/
theorem resolveId_setFields (i : String) (p : Obj) (l : List Ent) (n1 n2 : Nat)
    (h : ∀ e ∈ l, e.id = i → jsGet e.fields "name" = jsGet p "name") (s : String) :
    resolveId ⟨setFields i p l, n1⟩ s = resolveId ⟨l, n2⟩ s := by
  simp only [resolveId, resolveEnt, setFields]
  apply find?_map_id_congr
  intro e he
  by_cases hc : (e.id == i) = true
  · have hie : e.id = i := beq_iff_eq.mp hc
    have hn := h e he hie
    constructor
    · rw [if_pos hc]
      simp only [nameMatches, hn]
    · rw [if_pos hc]
  · rw [if_neg hc]
    exact ⟨rfl, rfl⟩

/-- Resolution is monotone under appending an entity. -/
theorem resolveId_append_mono (l : List Ent) (x : Ent) (n1 n2 : Nat) (s : String) (i : String)
    (h : resolveId ⟨l, n1⟩ s = some i) : resolveId ⟨l ++ [x], n2⟩ s = some i := by
  simp only [resolveId, resolveEnt] at h ⊢
  rw [List.find?_append]
  rcases hf : l.find? (fun e => nameMatches e s) with _ | e
  · rw [hf] at h
    cases h
  · rw [hf] at h
    exact h

/-- Resolution inside the upsert, for a snapshot with a string name:
the modelled lookup's answer on that name. -/
theorem resolve_valid (S : Remote) (r : Obj) (n : String)
    (hname : jsGet r "name" = some (JValue.str n)) :
    ImportReports.resolve S r = Except.ok (match resolveEnt S n with
      | some e => renderEnt e
      | none => JValue.null) := by
  rw [ImportReports.resolve,
    show jsGet (ImportReports.sanitizeForImport r) "name" = some (JValue.str n) from by
      rw [sanitize_keeps_name, hname],
    findByName_spec]
  rfl

/-- A valid upsert reduces to the normal-form step: patch the first
name-matching entity or post a new report. -/
theorem upsert_valid_eq (S : Remote) (r : Obj) (n : String)
    (hname : jsGet r "name" = some (JValue.str n)) (hne : n ≠ "")
    (hWF : RemoteWF S) :
    (ImportReports.upsert S r).2 = Except.ok (reportStep S r) := by
  have htr : jsTruthy (jsGet r "name") = true := by
    rw [hname]
    simp [jsTruthy, truthy, hne]
  have hres := resolve_valid S r n hname
  have hsn := searchName_valid r n hname
  rw [reportStep, hsn]
  cases hfind : resolveEnt S n with
  | some e =>
      have hmem : e ∈ S.list := List.mem_of_find?_eq_some hfind
      have hne2 : e.id ≠ "" := (hWF.2 e hmem).1
      have hid : jsGetV (renderEnt e) "id" = some (JValue.str e.id) := by
        rw [renderEnt, jsGetV, jsGet_cons, if_pos rfl]
      simp [ImportReports.upsert, hname, hne, hres, hfind, hid, jsTruthy, truthy, hne2,
        jsToStringOpt, jsToString]
  | none =>
      simp [ImportReports.upsert, hname, hne, hres, hfind, jsGetV, jsTruthy, truthy]

/-- Overwriting fields changes no stored id. -/
theorem setFields_map_id (i : String) (p : Obj) (l : List Ent) :
    (setFields i p l).map (fun e => e.id) = l.map (fun e => e.id) := by
  rw [setFields, List.map_map]
  congr 1
  funext e
  by_cases h : (e.id == i) = true <;> simp [Function.comp, h]

/-- Well-formedness of the remote survives a valid report step. -/
theorem remoteWF_reportStep (S : Remote) (r : Obj)
    (hWF : RemoteWF S) : RemoteWF (reportStep S r).1 := by
  rw [reportStep]
  cases hfind : resolveEnt S (searchName r) with
  | some e =>
      show RemoteWF (espoReportPatch S e.id (ImportReports.sanitizeForImport r))
      rw [espoReportPatch]
      constructor
      · show ((setFields e.id (ImportReports.sanitizeForImport r) S.list).map
            (fun e => e.id)).Nodup
        rw [setFields_map_id]
        exact hWF.1
      · intro e1 he1
        rcases List.mem_map.mp he1 with ⟨e0, he0, rfl⟩
        by_cases h0 : (e0.id == e.id) = true
        · rw [if_pos h0]
          exact hWF.2 e0 he0
        · rw [if_neg h0]
          exact hWF.2 e0 he0
  | none =>
      show RemoteWF (espoReportPost S (ImportReports.sanitizeForImport r))
      rw [espoReportPost]
      constructor
      · show ((S.list ++ [(⟨freshId S.nextId, ImportReports.sanitizeForImport r⟩ : Ent)]).map
            (fun e => e.id)).Nodup
        rw [List.map_append]
        rw [List.nodup_append]
        refine ⟨hWF.1, List.nodup_singleton _, ?_⟩
        intro x hx hx2
        rcases List.mem_singleton.mp hx2 with rfl
        rcases List.mem_map.mp hx with ⟨e0, he0, he0x⟩
        exact (hWF.2 e0 he0).2 S.nextId (Nat.le_refl _) he0x
      · intro e1 he1
        rcases List.mem_append.mp he1 with h1 | h1
        · refine ⟨(hWF.2 e1 h1).1, ?_⟩
          intro m hm
          exact (hWF.2 e1 h1).2 m (Nat.le_of_succ_le hm)
        · rcases List.mem_singleton.mp h1 with rfl
          refine ⟨freshId_ne_empty S.nextId, ?_⟩
          intro m hm heq
          have hinj := freshId_inj heq
          subst hinj
          exact absurd hm (by simp)

/-- Patching the entity resolution found leaves every resolution
unchanged: the overwrite re-stores the same name. -/
theorem resolveId_patch_found (S : Remote) (r : Obj) (n : String) (e : Ent)
    (hname : jsGet r "name" = some (JValue.str n))
    (hWF : RemoteWF S)
    (hfind : resolveEnt S n = some e) (s : String) :
    resolveId ⟨setFields e.id (ImportReports.sanitizeForImport r) S.list, S.nextId⟩ s
      = resolveId S s := by
  have hfind2 : S.list.find? (fun e2 => nameMatches e2 n) = some e := hfind
  have hmem : e ∈ S.list := List.mem_of_find?_eq_some hfind2
  have hech := List.find?_some hfind2
  have hname2 : jsGet e.fields "name" = some (JValue.str n) :=
    nameMatches_eq e n hech
  have h : ∀ e1 ∈ S.list, e1.id = e.id →
      jsGet e1.fields "name" = jsGet (ImportReports.sanitizeForImport r) "name" := by
    intro e1 he1 hid1
    have he1e : e1 = e := List.inj_on_of_nodup_map hWF.1 he1 hmem hid1
    rw [he1e, hname2, sanitize_keeps_name, hname]
  exact resolveId_setFields e.id (ImportReports.sanitizeForImport r) S.list
    S.nextId S.nextId h s

/-- A valid report step keeps every resolved name resolved to the same
identifier. -/
theorem reportStep_resolve_mono (S : Remote) (r : Obj) (n : String)
    (hname : jsGet r "name" = some (JValue.str n)) (hWF : RemoteWF S)
    (s : String) (i : String) (h : resolveId S s = some i) :
    resolveId (reportStep S r).1 s = some i := by
  rw [reportStep, searchName_valid r n hname]
  cases hfind : resolveEnt S n with
  | some e =>
      show resolveId (espoReportPatch S e.id (ImportReports.sanitizeForImport r)) s = some i
      rw [espoReportPatch, resolveId_patch_found S r n e hname hWF hfind s]
      exact h
  | none =>
      show resolveId (espoReportPost S (ImportReports.sanitizeForImport r)) s = some i
      rw [espoReportPost]
      exact resolveId_append_mono S.list _ S.nextId (S.nextId + 1) s i h

/-- After a valid report step, the snapshot's own name resolves to the
entity the step wrote: that entity holds the sanitized payload, and its
identifier cannot be reassigned by later creates. -/
theorem reportStep_own (S : Remote) (r : Obj) (n : String)
    (hname : jsGet r "name" = some (JValue.str n)) (hWF : RemoteWF S) :
    ∃ i, resolveId (reportStep S r).1 (searchName r) = some i
      ∧ (∀ e ∈ (reportStep S r).1.list, e.id = i →
          e.fields = ImportReports.sanitizeForImport r)
      ∧ (∀ m, (reportStep S r).1.nextId ≤ m → i ≠ freshId m) := by
  rw [reportStep, searchName_valid r n hname]
  cases hfind : resolveEnt S n with
  | some e =>
      have hfind2 : S.list.find? (fun e2 => nameMatches e2 n) = some e := hfind
      have hmem : e ∈ S.list := List.mem_of_find?_eq_some hfind2
      refine ⟨e.id, ?_, ?_, ?_⟩
      · show resolveId (espoReportPatch S e.id (ImportReports.sanitizeForImport r)) n
            = some e.id
        rw [espoReportPatch, resolveId_patch_found S r n e hname hWF hfind n,
          resolveId, hfind]
        rfl
      · show ∀ e1 ∈ (espoReportPatch S e.id (ImportReports.sanitizeForImport r)).list,
            e1.id = e.id → e1.fields = ImportReports.sanitizeForImport r
        rw [espoReportPatch]
        intro e1 he1 hid1
        rcases List.mem_map.mp he1 with ⟨e0, he0, rfl⟩
        by_cases h0 : (e0.id == e.id) = true
        · rw [if_pos h0]
        · rw [if_neg h0] at hid1 ⊢
          exact absurd hid1 (by simpa using h0)
      · show ∀ m, (espoReportPatch S e.id (ImportReports.sanitizeForImport r)).nextId ≤ m →
            e.id ≠ freshId m
        rw [espoReportPatch]
        intro m hm
        exact (hWF.2 e hmem).2 m hm
  | none =>
      have hnone : S.list.find? (fun e2 => nameMatches e2 n) = none := hfind
      refine ⟨freshId S.nextId, ?_, ?_, ?_⟩
      · show resolveId (espoReportPost S (ImportReports.sanitizeForImport r)) n
            = some (freshId S.nextId)
        rw [espoReportPost, resolveId, resolveEnt]
        show ((S.list ++ [(⟨freshId S.nextId, ImportReports.sanitizeForImport r⟩ : Ent)]).find?
            (fun e2 => nameMatches e2 n)).map (fun e => e.id) = some (freshId S.nextId)
        rw [List.find?_append, hnone]
        have hm : nameMatches ⟨freshId S.nextId, ImportReports.sanitizeForImport r⟩ n = true := by
          rw [nameMatches]
          show (match jsGet (ImportReports.sanitizeForImport r) "name" with
            | some (JValue.str m) => m == n
            | _ => false) = true
          rw [sanitize_keeps_name, hname]
          simp
        simp [List.find?_cons, hm]
      · show ∀ e1 ∈ (espoReportPost S (ImportReports.sanitizeForImport r)).list,
            e1.id = freshId S.nextId → e1.fields = ImportReports.sanitizeForImport r
        rw [espoReportPost]
        intro e1 he1 hid1
        rcases List.mem_append.mp he1 with h1 | h1
        · exact absurd hid1 ((hWF.2 e1 h1).2 S.nextId (Nat.le_refl _))
        · rcases List.mem_singleton.mp h1 with rfl
          rfl
      · show ∀ m, (espoReportPost S (ImportReports.sanitizeForImport r)).nextId ≤ m →
            freshId S.nextId ≠ freshId m
        rw [espoReportPost]
        intro m hm heq
        have hinj := freshId_inj heq
        rw [← hinj] at hm
        exact absurd hm (by simp)

/-- Well-formedness of the remote survives a report batch. -/
theorem reportRun_WF (S : Remote) (B : List Obj) (hWF : RemoteWF S) :
    RemoteWF (reportRunState S B) := by
  induction B generalizing S with
  | nil => exact hWF
  | cons r B1 ih =>
      show RemoteWF (reportRunState (reportStep S r).1 B1)
      exact ih (reportStep S r).1 (remoteWF_reportStep S r hWF)

/-- A valid report batch keeps every resolved name resolved to the same
identifier. -/
theorem reportRun_mono (S : Remote) (B : List Obj)
    (hB : ∀ r ∈ B, ValidReport r) (hWF : RemoteWF S)
    (s : String) (i : String) (h : resolveId S s = some i) :
    resolveId (reportRunState S B) s = some i := by
  induction B generalizing S with
  | nil => exact h
  | cons r B1 ih =>
      obtain ⟨n, hname, _⟩ := hB r (List.mem_cons_self _ _)
      show resolveId (reportRunState (reportStep S r).1 B1) s = some i
      exact ih (reportStep S r).1
        (fun r1 h1 => hB r1 (List.mem_cons_of_mem _ h1))
        (remoteWF_reportStep S r hWF)
        (reportStep_resolve_mono S r n hname hWF s i h)

/-- After a valid report batch, every batch name resolves. -/
theorem reportRun_sat (S : Remote) (B : List Obj)
    (hB : ∀ r ∈ B, ValidReport r) (hWF : RemoteWF S) :
    ∀ r ∈ B, ∃ i, resolveId (reportRunState S B) (searchName r) = some i := by
  induction B generalizing S with
  | nil =>
      intro r hr
      exact absurd hr (List.not_mem_nil _)
  | cons r0 B1 ih =>
      intro r hr
      have hBt : ∀ r2 ∈ B1, ValidReport r2 :=
        fun r2 h2 => hB r2 (List.mem_cons_of_mem _ h2)
      rcases List.mem_cons.mp hr with rfl | hr1
      · obtain ⟨n, hname, _⟩ := hB r (List.mem_cons_self _ _)
        obtain ⟨i, hi, _, _⟩ := reportStep_own S r n hname hWF
        refine ⟨i, ?_⟩
        show resolveId (reportRunState (reportStep S r).1 B1) (searchName r) = some i
        exact reportRun_mono (reportStep S r).1 B1 hBt
          (remoteWF_reportStep S r hWF) (searchName r) i hi
      · exact ih (reportStep S r0).1 hBt (remoteWF_reportStep S r0 hWF) r hr1

/-- Write targets agree between two states resolving every batch name
identically. -/
theorem writesFor_congr (S1 S2 : Remote) (B : List Obj)
    (h : ∀ r ∈ B, resolveId S1 (searchName r) = resolveId S2 (searchName r)) :
    writesFor S1 B = writesFor S2 B := by
  rw [writesFor, writesFor]
  exact List.map_congr_left (fun r hr => by rw [h r hr])

/-- Over a state already resolving every batch name, a valid report batch
is a pure overwrite replay: each entity patches its resolved target with
its sanitized payload, the counter is untouched, and every outcome is
updated. -/
theorem reportRun_replay (S : Remote) (B : List Obj)
    (hB : ∀ r ∈ B, ValidReport r) (hWF : RemoteWF S)
    (hsat : ∀ r ∈ B, ∃ i, resolveId S (searchName r) = some i) :
    reportRunState S B = ⟨applyWrites (writesFor S B) S.list, S.nextId⟩
  ∧ reportRunOuts S B = List.replicate B.length Outcome.updated := by
  induction B generalizing S with
  | nil => exact ⟨rfl, rfl⟩
  | cons r B1 ih =>
      obtain ⟨n, hname, hne⟩ := hB r (List.mem_cons_self _ _)
      have hsn := searchName_valid r n hname
      obtain ⟨i, hres⟩ := hsat r (List.mem_cons_self _ _)
      rw [hsn, resolveId] at hres
      cases hfind : resolveEnt S n with
      | none =>
          rw [hfind] at hres
          cases hres
      | some e =>
          rw [hfind] at hres
          have hstep : reportStep S r
              = (espoReportPatch S e.id (ImportReports.sanitizeForImport r), .updated) := by
            rw [reportStep, hsn, hfind]
          have hstab : ∀ s, resolveId
              (espoReportPatch S e.id (ImportReports.sanitizeForImport r)) s
              = resolveId S s := by
            intro s
            rw [espoReportPatch]
            exact resolveId_patch_found S r n e hname hWF hfind s
          have hWF1 := remoteWF_reportStep S r hWF
          rw [hstep] at hWF1
          have hBt : ∀ r2 ∈ B1, ValidReport r2 :=
            fun r2 h2 => hB r2 (List.mem_cons_of_mem _ h2)
          have hsat1 : ∀ r1 ∈ B1, ∃ i1, resolveId
              (espoReportPatch S e.id (ImportReports.sanitizeForImport r))
              (searchName r1) = some i1 := by
            intro r1 h1
            rw [hstab]
            exact hsat r1 (List.mem_cons_of_mem _ h1)
          obtain ⟨ihs, iho⟩ := ih (espoReportPatch S e.id (ImportReports.sanitizeForImport r))
            hBt hWF1 hsat1
          constructor
          · show reportRunState (reportStep S r).1 B1 = _
            rw [hstep]
            show reportRunState (espoReportPatch S e.id (ImportReports.sanitizeForImport r)) B1
                = _
            rw [ihs,
              writesFor_congr (espoReportPatch S e.id (ImportReports.sanitizeForImport r)) S B1
                (fun r1 _ => hstab (searchName r1))]
            rw [show writesFor S (r :: B1)
                = ((resolveId S (searchName r)).getD "", ImportReports.sanitizeForImport r)
                  :: writesFor S B1 from rfl]
            rw [hsn, resolveId, hfind]
            rfl
          · show (reportStep S r).2 :: reportRunOuts (reportStep S r).1 B1 = _
            rw [hstep]
            show Outcome.updated
                :: reportRunOuts (espoReportPatch S e.id (ImportReports.sanitizeForImport r)) B1
                = _
            rw [iho]
            rfl

/-- The step counter never decreases. -/
theorem reportStep_nextId_le (S : Remote) (r : Obj) :
    S.nextId ≤ (reportStep S r).1.nextId := by
  rw [reportStep]
  cases hfind : resolveEnt S (searchName r) with
  | some e => exact Nat.le_refl _
  | none => exact Nat.le_succ _

/-- A valid report batch whose entities all resolve away from a given
identifier preserves the fields stored under that identifier, provided
the remote can never assign it to a create. -/
theorem reportRun_preserves (S : Remote) (B : List Obj)
    (hB : ∀ r ∈ B, ValidReport r) (hWF : RemoteWF S)
    (j : String)
    (hj : ∀ r ∈ B, resolveId (reportRunState S B) (searchName r) ≠ some j)
    (hfr : ∀ m, S.nextId ≤ m → j ≠ freshId m)
    (p : Obj)
    (hp : ∀ e ∈ S.list, e.id = j → e.fields = p) :
    ∀ e ∈ (reportRunState S B).list, e.id = j → e.fields = p := by
  induction B generalizing S with
  | nil => exact hp
  | cons r B1 ih =>
      obtain ⟨n, hname, hne⟩ := hB r (List.mem_cons_self _ _)
      have hsn := searchName_valid r n hname
      have hWF1 := remoteWF_reportStep S r hWF
      have hBt : ∀ r2 ∈ B1, ValidReport r2 :=
        fun r2 h2 => hB r2 (List.mem_cons_of_mem _ h2)
      obtain ⟨i, hown, _, _⟩ := reportStep_own S r n hname hWF
      have hfin : resolveId (reportRunState (reportStep S r).1 B1) (searchName r) = some i :=
        reportRun_mono (reportStep S r).1 B1 hBt hWF1 (searchName r) i hown
      have hij : i ≠ j := by
        intro hh
        exact hj r (List.mem_cons_self _ _) (hh ▸ hfin)
      show ∀ e ∈ (reportRunState (reportStep S r).1 B1).list, e.id = j → e.fields = p
      apply ih (reportStep S r).1 hBt hWF1
        (fun r1 h1 => hj r1 (List.mem_cons_of_mem _ h1))
        (fun m hm => hfr m (Nat.le_trans (reportStep_nextId_le S r) hm))
      rw [reportStep, hsn]
      cases hfind : resolveEnt S n with
      | some e =>
          have hie : i = e.id := by
            have hpr : resolveId (reportStep S r).1 (searchName r) = some e.id := by
              rw [reportStep, hsn, hfind]
              show resolveId (espoReportPatch S e.id (ImportReports.sanitizeForImport r)) n
                  = some e.id
              rw [espoReportPatch, resolveId_patch_found S r n e hname hWF hfind n,
                resolveId, hfind]
              rfl
            rw [hown] at hpr
            exact (Option.some.injEq _ _ ▸ hpr).symm ▸ rfl
          intro e1 he1 hej
          show e1.fields = p
          rcases List.mem_map.mp he1 with ⟨e0, he0, rfl⟩
          by_cases h0 : (e0.id == e.id) = true
          · rw [if_pos h0] at hej
            have : e0.id = e.id := beq_iff_eq.mp h0
            exact absurd (hie.trans (this ▸ hej)) hij
          · rw [if_neg h0] at hej ⊢
            exact hp e0 he0 hej
      | none =>
          intro e1 he1 hej
          rcases List.mem_append.mp he1 with h1 | h1
          · exact hp e1 h1 hej
          · rcases List.mem_singleton.mp h1 with rfl
            exact absurd hej.symm (hfr S.nextId (Nat.le_refl _))

/-- After a valid report batch, re-applying the batch write sequence at
the final resolutions leaves the store unchanged. -/
theorem reportRun_applyWrites_fix (T : Remote) (B : List Obj)
    (hB : ∀ r ∈ B, ValidReport r) (hWF : RemoteWF T) :
    applyWrites (writesFor (reportRunState T B) B) (reportRunState T B).list
      = (reportRunState T B).list := by
  induction B generalizing T with
  | nil => rfl
  | cons r B1 ih =>
      obtain ⟨n, hname, hne⟩ := hB r (List.mem_cons_self _ _)
      have hWF1 := remoteWF_reportStep T r hWF
      have hBt : ∀ r2 ∈ B1, ValidReport r2 :=
        fun r2 h2 => hB r2 (List.mem_cons_of_mem _ h2)
      obtain ⟨i, hown, hflds, hfrT⟩ := reportStep_own T r n hname hWF
      have hfin : resolveId (reportRunState (reportStep T r).1 B1) (searchName r) = some i :=
        reportRun_mono (reportStep T r).1 B1 hBt hWF1 (searchName r) i hown
      have ih1 := ih (reportStep T r).1 hBt hWF1
      show applyWrites (writesFor (reportRunState (reportStep T r).1 B1) (r :: B1))
          (reportRunState (reportStep T r).1 B1).list
        = (reportRunState (reportStep T r).1 B1).list
      rw [show writesFor (reportRunState (reportStep T r).1 B1) (r :: B1)
          = ((resolveId (reportRunState (reportStep T r).1 B1) (searchName r)).getD "",
             ImportReports.sanitizeForImport r)
            :: writesFor (reportRunState (reportStep T r).1 B1) B1 from rfl, hfin]
      show applyWrites (writesFor (reportRunState (reportStep T r).1 B1) B1)
          (setFields i (ImportReports.sanitizeForImport r)
            (reportRunState (reportStep T r).1 B1).list)
        = (reportRunState (reportStep T r).1 B1).list
      by_cases hmem : ∃ q, (i, q) ∈ writesFor (reportRunState (reportStep T r).1 B1) B1
      · rw [applyWrites_absorb _ _ _ _ hmem]
        exact ih1
      · have hj : ∀ r1 ∈ B1,
            resolveId (reportRunState (reportStep T r).1 B1) (searchName r1) ≠ some i := by
          intro r1 h1 heq
          refine hmem ⟨ImportReports.sanitizeForImport r1, ?_⟩
          have hmm : ((resolveId (reportRunState (reportStep T r).1 B1)
                (searchName r1)).getD "", ImportReports.sanitizeForImport r1)
              ∈ writesFor (reportRunState (reportStep T r).1 B1) B1 :=
            List.mem_map_of_mem _ h1
          rw [heq] at hmm
          exact hmm
        have hp : ∀ e ∈ (reportRunState (reportStep T r).1 B1).list,
            e.id = i → e.fields = ImportReports.sanitizeForImport r :=
          reportRun_preserves (reportStep T r).1 B1 hBt hWF1 i hj hfrT _ hflds
        rw [setFields_noop i _ _ hp]
        exact ih1

/-- A valid report batch is idempotent: starting from the state the batch
produced, rerunning it leaves the remote unchanged and classifies every
entity as updated. -/
theorem reportRun_idem (T : Remote) (B : List Obj)
    (hB : ∀ r ∈ B, ValidReport r) (hWF : RemoteWF T) :
    reportRunState (reportRunState T B) B = reportRunState T B
  ∧ reportRunOuts (reportRunState T B) B = List.replicate B.length Outcome.updated := by
  have hWFS1 := reportRun_WF T B hWF
  have hsat := reportRun_sat T B hB hWF
  obtain ⟨hrep, houts⟩ := reportRun_replay (reportRunState T B) B hB hWFS1 hsat
  refine ⟨?_, houts⟩
  rw [hrep, reportRun_applyWrites_fix T B hB hWF]

/-- On an all-valid file list the report import loop reduces to the pure
batch run: same final state, same outcomes, and no error raised. -/
theorem mainLoop_valid_NF (S : Remote) (L : List (Except String Obj))
    (hWF : RemoteWF S)
    (hL : ∀ c ∈ L, ∃ r, c = Except.ok r ∧ ValidReport r) :
    (ImportReports.mainLoop S L).state = reportRunState S (okVals L)
  ∧ (ImportReports.mainLoop S L).outcomes = reportRunOuts S (okVals L)
  ∧ (ImportReports.mainLoop S L).err = none := by
  induction L generalizing S with
  | nil => exact ⟨rfl, rfl, rfl⟩
  | cons c L1 ih =>
      obtain ⟨r, rfl, hv⟩ := hL c (List.mem_cons_self _ _)
      obtain ⟨n, hname, hne⟩ := hv
      have hstep := upsert_valid_eq S r n hname hne hWF
      rcases hsp : reportStep S r with ⟨S1, o⟩
      rw [hsp] at hstep
      have hWF1 : RemoteWF S1 := by
        have := remoteWF_reportStep S r hWF
        rw [hsp] at this
        exact this
      have ihh := ih S1 hWF1 (fun c2 h2 => hL c2 (List.mem_cons_of_mem _ h2))
      rw [ImportReports.mainLoop]
      cases hu : ImportReports.upsert S r with
      | mk tr res =>
          have hres : res = Except.ok (S1, o) := by
            rw [← hstep, hu]
          subst hres
          have hok : okVals (Except.ok r :: L1) = r :: okVals L1 := rfl
          rw [hok]
          refine ⟨?_, ?_, ?_⟩
          · show (ImportReports.mainLoop S1 L1).state = reportRunState (reportStep S r).1 (okVals L1)
            rw [hsp]
            exact ihh.1
          · show o :: (ImportReports.mainLoop S1 L1).outcomes
                = (reportStep S r).2 :: reportRunOuts (reportStep S r).1 (okVals L1)
            rw [hsp]
            rw [ihh.2.1]
          · show (ImportReports.mainLoop S1 L1).err = none
            exact ihh.2.2

/-- On an all-valid file list the workflow import loop reduces to the pure
batch run: same final state and the created tally counts the created
steps. -/
theorem wfMainLoop_NF (S : Remote) (L : List (Except String Obj))
    (hL : ∀ c ∈ L, ∃ d, c = Except.ok d ∧ ValidWorkflow d) :
    (ImportWorkflows.mainLoop S L).state = wfRunState S (okVals L)
  ∧ (ImportWorkflows.mainLoop S L).tally.created = wfRunCreated S (okVals L) := by
  induction L generalizing S with
  | nil => exact ⟨rfl, rfl⟩
  | cons c L1 ih =>
      obtain ⟨d, rfl, hv⟩ := hL c (List.mem_cons_self _ _)
      rcases hsp : wfStep S d with ⟨S1, o⟩
      obtain ⟨hs1, ho1⟩ := step_ok_state_out S d
      rw [hsp] at hs1 ho1
      have ihh := ih S1 (fun c2 h2 => hL c2 (List.mem_cons_of_mem _ h2))
      rw [ImportWorkflows.mainLoop]
      rcases hst : ImportWorkflows.step S (Except.ok d) with ⟨S1x, ox, trx⟩
      have hx1 : S1x = S1 := by
        have h3 := hs1
        rw [hst] at h3
        exact h3
      have hx2 : ox = o := by
        have h3 := ho1
        rw [hst] at h3
        exact h3
      have hok : okVals (Except.ok d :: L1) = d :: okVals L1 := rfl
      rw [hok, hx1, hx2]
      refine ⟨?_, ?_⟩
      · show (ImportWorkflows.mainLoop S1 L1).state = wfRunState (wfStep S d).1 (okVals L1)
        rw [hsp]
        exact ihh.1
      · show (bump o (ImportWorkflows.mainLoop S1 L1).tally).created
            = (match (wfStep S d).2 with | .created => 1 | _ => 0)
              + wfRunCreated (wfStep S d).1 (okVals L1)
        rw [hsp]
        cases o <;> (simp [bump, ihh.2]; try omega)

/-- Claim C1: upsert is idempotent.  For a well-formed remote target and a
valid batch (every kept report file parses with a non-empty string name;
every kept workflow file parses with a pre-assigned string id), running
the import a second time against the state the first run produced leaves the
remote state identical and classifies nothing as created: every entity
resolves to an existing record and is updated in place, and the report run
raises no error on either pass. -/
theorem C1_upsert_idempotent
    (T : Remote) (dirR : List (String × Except String Obj))
    (U : Remote) (dirW : List (String × Except String Obj))
    (hWF : RemoteWF T)
    (hR : ∀ p ∈ dirR, ImportReports.fileKeep p.1 = true →
        ∃ r, p.2 = Except.ok r ∧ ValidReport r)
    (hW : ∀ p ∈ dirW, ImportWorkflows.fileKeep p.1 = true →
        ∃ d, p.2 = Except.ok d ∧ ValidWorkflow d) :
    ((ImportReports.mainRun (ImportReports.mainRun T dirR).state dirR).state
        = (ImportReports.mainRun T dirR).state
      ∧ (ImportReports.mainRun (ImportReports.mainRun T dirR).state dirR).outcomes.count
          Outcome.created = 0
      ∧ (∀ o ∈ (ImportReports.mainRun (ImportReports.mainRun T dirR).state dirR).outcomes,
          o = Outcome.updated)
      ∧ (ImportReports.mainRun T dirR).err = none
      ∧ (ImportReports.mainRun (ImportReports.mainRun T dirR).state dirR).err = none)
  ∧ ((ImportWorkflows.mainRun (ImportWorkflows.mainRun U dirW).state dirW).state
        = (ImportWorkflows.mainRun U dirW).state
      ∧ (ImportWorkflows.mainRun (ImportWorkflows.mainRun U dirW).state dirW).tally.created
          = 0) := by
  constructor
  · set L := (dirR.filter (fun p => ImportReports.fileKeep p.1)).map (fun p => p.2)
    set B := okVals L
    have hL : ∀ c ∈ L, ∃ r, c = Except.ok r ∧ ValidReport r := by
      intro c hc
      rcases List.mem_map.mp hc with ⟨p, hp, rfl⟩
      rcases List.mem_filter.mp hp with ⟨hp1, hp2⟩
      exact hR p hp1 hp2
    have hB : ∀ r ∈ B, ValidReport r := by
      intro r hr
      rcases List.mem_filterMap.mp hr with ⟨c, hc, hco⟩
      rcases hL c hc with ⟨r2, rfl, hv⟩
      have hr2 : r2 = r := by
        simp [Except.toOption] at hco
        exact hco
      rw [← hr2]
      exact hv
    obtain ⟨nf1s, nf1o, nf1e⟩ := mainLoop_valid_NF T L hWF hL
    have hWF1 : RemoteWF (reportRunState T B) := reportRun_WF T B hWF
    obtain ⟨core_s, core_o⟩ := reportRun_idem T B hB hWF
    have hstate1 : (ImportReports.mainRun T dirR).state = reportRunState T B := nf1s
    obtain ⟨nf2s, nf2o, nf2e⟩ := mainLoop_valid_NF (reportRunState T B) L hWF1 hL
    have hrw : (ImportReports.mainRun (reportRunState T B) dirR).outcomes
        = List.replicate B.length Outcome.updated := by
      show (ImportReports.mainLoop (reportRunState T B) L).outcomes = _
      rw [nf2o, core_o]
    refine ⟨?_, ?_, ?_, ?_, ?_⟩
    · rw [hstate1]
      show (ImportReports.mainLoop (reportRunState T B) L).state = reportRunState T B
      rw [nf2s, core_s]
    · rw [hstate1, hrw]
      exact List.count_eq_zero.mpr
        (fun hmem => absurd (List.eq_of_mem_replicate hmem) (by decide))
    · rw [hstate1]
      intro o ho
      rw [hrw] at ho
      exact List.eq_of_mem_replicate ho
    · exact nf1e
    · rw [hstate1]
      show (ImportReports.mainLoop (reportRunState T B) L).err = none
      exact nf2e
  · set Lw := (dirW.filter (fun p => ImportWorkflows.fileKeep p.1)).map (fun p => p.2)
    set Bw := okVals Lw
    have hLw : ∀ c ∈ Lw, ∃ d, c = Except.ok d ∧ ValidWorkflow d := by
      intro c hc
      rcases List.mem_map.mp hc with ⟨p, hp, rfl⟩
      rcases List.mem_filter.mp hp with ⟨hp1, hp2⟩
      exact hW p hp1 hp2
    have hBw : ∀ d ∈ Bw, ValidWorkflow d := by
      intro d hd
      rcases List.mem_filterMap.mp hd with ⟨c, hc, hco⟩
      rcases hLw c hc with ⟨d2, rfl, hv⟩
      have hd2 : d2 = d := by
        simp [Except.toOption] at hco
        exact hco
      rw [← hd2]
      exact hv
    obtain ⟨wnf1s, _⟩ := wfMainLoop_NF U Lw hLw
    obtain ⟨wcore_s, wcore_c⟩ := wfRun_idem U Bw hBw
    have hstate1w : (ImportWorkflows.mainRun U dirW).state = wfRunState U Bw := wnf1s
    obtain ⟨wnf2s, wnf2c⟩ := wfMainLoop_NF (wfRunState U Bw) Lw hLw
    constructor
    · rw [hstate1w]
      show (ImportWorkflows.mainLoop (wfRunState U Bw) Lw).state = wfRunState U Bw
      rw [wnf2s, wcore_s]
    · rw [hstate1w]
      show (ImportWorkflows.mainLoop (wfRunState U Bw) Lw).tally.created = 0
      rw [wnf2c, wcore_c]

/-- Witness for the idempotence theorem: one report file and one workflow
file imported twice into an empty remote. -/
theorem C1_upsert_idempotent_witness :
    (ImportReports.mainRun
        (ImportReports.mainRun ⟨[], 0⟩
          [("a.json", Except.ok [("name", JValue.str "A")])]).state
        [("a.json", Except.ok [("name", JValue.str "A")])]).state
      = (ImportReports.mainRun ⟨[], 0⟩
          [("a.json", Except.ok [("name", JValue.str "A")])]).state
  ∧ (ImportWorkflows.mainRun
        (ImportWorkflows.mainRun ⟨[], 0⟩
          [("w.json", Except.ok [("id", JValue.str "w1")])]).state
        [("w.json", Except.ok [("id", JValue.str "w1")])]).tally.created = 0 := by
  have h := C1_upsert_idempotent ⟨[], 0⟩
    [("a.json", Except.ok [("name", JValue.str "A")])]
    ⟨[], 0⟩
    [("w.json", Except.ok [("id", JValue.str "w1")])]
    (by exact ⟨by simp, by simp⟩)
    (by
      intro p hp hk
      rcases List.mem_singleton.mp hp with rfl
      exact ⟨[("name", JValue.str "A")], rfl, ⟨"A", rfl, by decide⟩⟩)
    (by
      intro p hp hk
      rcases List.mem_singleton.mp hp with rfl
      exact ⟨[("id", JValue.str "w1")], rfl, ⟨"w1", rfl⟩⟩)
  exact ⟨h.1.1, h.2.2⟩
